import Mathlib

/-!
SPIFlash / WirelessHEX: wireless programming protocol.

A shallow embedding of `WirelessHEX.cpp` (Intel-HEX record validation, frame
building and parsing, the receiver loop `HandleWirelessHEXData`, the host relay
loop `HandleSerialHEXData`) and of the flash commands of `SPIFlash.cpp`.

Conventions.
* Bytes, characters and machine words are natural numbers; every place where
  the C code truncates to `byte` or `uint16_t` carries an explicit `% 256` or
  `% 65536`.
* A C buffer is a `List Nat`; `buf.getD i 0` is the read `buf[i]`.  A buffer may
  be longer than the length passed along with it (stale bytes after a frame),
  and `p + k` on a pointer is `List.drop k`.
* A `for` loop with a known iteration count is a structural recursion on that
  count, or a fold over `List.range`; an early `return` is the `none` case.
-/

namespace WirelessHEX

/-! ## Intel-HEX record codec -/

/-- The test of `validateHEXData` on one character:
`(c >= 48 && c <= 57) || (c >= 65 && c <= 70)`, i.e. `0-9`, `A-F`. -/
def isHEX (c : Nat) : Bool :=
  (decide (48 ≤ c) && decide (c ≤ 57)) || (decide (65 ≤ c) && decide (c ≤ 70))

/-- The value of one hex character as `BYTEfromHEX` computes it:
`c >= 65 ? c - 55 : c - 48` (in `int` arithmetic). -/
def nibble (c : Nat) : Int :=
  if 65 ≤ c then (c : Int) - 55 else (c : Int) - 48

/-- The function `byte BYTEfromHEX(char MSB, char LSB)`:
`(MSB>=65?MSB-55:MSB-48)*16 + (LSB>=65?LSB-55:LSB-48)`, truncated to a byte. -/
def BYTEfromHEX (MSB LSB : Nat) : Nat :=
  ((nibble MSB * 16 + nibble LSB) % 256).toNat

/-- One iteration of the loop of `validateHEXData` at index `i`, with the running
`uint16_t checksum`; `none` is the early `return 0`. -/
def validateStep (input : List Nat) (length : Nat) (acc : Option Nat) (i : Nat) :
    Option Nat :=
  match acc with
  | none => none
  | some checksum =>
    if !isHEX (input.getD i 0) then none
    else if i % 2 = 1 ∧ i < length - 2 then
      some ((checksum + BYTEfromHEX (input.getD (i - 1) 0) (input.getD i 0)) % 65536)
    else some checksum

/-- The loop `for (byte i=0; i<length; i++)` of `validateHEXData`. -/
def validateLoop (input : List Nat) (length : Nat) : Option Nat :=
  (List.range length).foldl (validateStep input length) (some 0)

/-- The function `byte validateHEXData(void* data, byte length)`: the declared byte count of
the record if everything is valid, `0` otherwise. -/
def validateHEXData (input : List Nat) (length : Nat) : Nat :=
  if length < 12 ∨ length % 2 ≠ 0 then 0
  else
    match validateLoop input length with
    | none => 0
    | some checksum =>
      let checksum := ((checksum ^^^ 0xFFFF) + 1) % 65536
      if checksum % 256 ≠
          BYTEfromHEX (input.getD (length - 2) 0) (input.getD (length - 1) 0) then 0
      else
        let dataLength := BYTEfromHEX (input.getD 0 0) (input.getD 1 0)
        if length ≠ dataLength * 2 + 10 then 0
        else dataLength

/-- The `k`-th decoded byte pair of a record: characters `2k` and `2k+1`. -/
def pairByte (input : List Nat) (k : Nat) : Nat :=
  BYTEfromHEX (input.getD (2 * k) 0) (input.getD (2 * k + 1) 0)

/-- Sum of the first `k` decoded byte pairs of a record. -/
def pairSum (input : List Nat) : Nat → Nat
  | 0 => 0
  | k + 1 => pairSum input k + pairByte input k

/-- Low 8 bits of the two's complement of `s`. -/
def twosComplementLow8 (s : Nat) : Nat := (256 - s % 256) % 256

/-- The conditions of acceptance of a record of `length` characters: at least
12 characters, an even number of them, all of them upper-case hex digits, the
last byte pair equal to the low 8 bits of the two's complement of the sum of
the other pairs, and `length = 2*c + 10` for the byte `c` of the first pair. -/
def Accepted (input : List Nat) (length : Nat) : Prop :=
  12 ≤ length ∧ length % 2 = 0 ∧
  (∀ i < length, isHEX (input.getD i 0) = true) ∧
  twosComplementLow8 (pairSum input (length / 2 - 1)) = pairByte input (length / 2 - 1) ∧
  length = 2 * pairByte input 0 + 10


/-- The decoding loop of `prepareSendBuffer`:
`buf[seqLen+i] = BYTEfromHEX(hexdata[i*2], hexdata[i*2+1])` for `i < length`. -/
def decodeHEX (hexdata : List Nat) (length : Nat) : List Nat :=
  (List.range length).map
    (fun i => BYTEfromHEX (hexdata.getD (i * 2) 0) (hexdata.getD (i * 2 + 1) 0))

/-- Upper-case hex digit (ASCII code) of a value below 16. -/
def hexDigit (n : Nat) : Nat := if n < 10 then 48 + n else 55 + n

/-- Upper-case hex text of a list of bytes, two characters per byte. -/
def hexString : List Nat → List Nat
  | [] => []
  | b :: bs => hexDigit (b / 16) :: hexDigit (b % 16) :: hexString bs

/-- The bytes of an Intel-HEX record before its checksum: byte count, address
(big endian), record type, payload. -/
def recordBytes (addr type : Nat) (payload : List Nat) : List Nat :=
  [payload.length, addr / 256, addr % 256, type] ++ payload

/-- Modelled from the spec: the Intel-HEX record text for a payload, which the
serial peer produces (no encoder is part of the sources):
`byte-count(2 hex) + address(4 hex) + record-type(2 hex) + data + checksum(2 hex)`,
upper-case hex, the checksum being the two's complement of the sum of the
other bytes. -/
def encodeRecord (addr type : Nat) (payload : List Nat) : List Nat :=
  hexString (recordBytes addr type payload ++
    [twosComplementLow8 (recordBytes addr type payload).sum])

/-! ## Framing helpers -/

/-- The text `"FLX?OK"`. -/
def FLX_OK : List Nat := [70, 76, 88, 63, 79, 75]

/-- The text `"FLX?EOF"`. -/
def FLX_EOF : List Nat := [70, 76, 88, 63, 69, 79, 70]

/-- The text `"FLX:INV"`. -/
def FLX_INV : List Nat := [70, 76, 88, 58, 73, 78, 86]

/-- The text `"FLXIMG:"`. -/
def FLXIMG : List Nat := [70, 76, 88, 73, 77, 71, 58]

/-- Decimal digits of `n`, most significant first, for at most `fuel` digits. -/
def utoaAux : Nat → Nat → List Nat → List Nat
  | 0, _, acc => acc
  | fuel + 1, n, acc =>
    if n < 10 then (48 + n) :: acc
    else utoaAux fuel (n / 10) ((48 + n % 10) :: acc)

/-- The conversion `%u` of `sprintf` for a `uint16_t` (at most five digits). -/
def utoa (n : Nat) : List Nat := utoaAux 5 n []

/-- The text written by `sprintf(buf, "FLX:%u:", seq)`. -/
def sprintfHeader (seq : Nat) : List Nat := [70, 76, 88, 58] ++ utoa seq ++ [58]

/-- The text written by `sprintf(buffer, "FLX:%u:OK", seq)`. -/
def sprintfOK (seq : Nat) : List Nat := [70, 76, 88, 58] ++ utoa seq ++ [58, 79, 75]

/-- The function `byte prepareSendBuffer(char* hexdata, byte* buf, byte length, uint16_t seq)`:
the bytes written to `buf` from index 0, and the returned size `seqLen+length`. -/
def prepareSendBuffer (hexdata : List Nat) (length seq : Nat) : List Nat × Nat :=
  let seqLen := (sprintfHeader seq).length % 256
  (sprintfHeader seq ++ decodeHEX hexdata length, (seqLen + length) % 256)

/-- The sequence-number loop shared by `HandleWirelessHEXData` and
`HandleSerialHEXData`, `for (byte i = 4; i<8; i++)`, as a recursion on the
number of iterations left.  `none` is `return false`; otherwise the values of
`tmp` and `index` on leaving the loop. -/
def readSEQ (Data : List Nat) : Nat → Nat → Nat → Nat → Option (Nat × Nat)
  | 0, _, index, tmp => some (tmp, index)
  | n + 1, i, index, tmp =>
    if 48 ≤ Data.getD i 0 ∧ Data.getD i 0 ≤ 57 then
      readSEQ Data n (i + 1) ((index + 1) % 256) ((tmp * 10 + Data.getD i 0 - 48) % 65536)
    else if Data.getD i 0 = 58 then
      if i = 4 then none else some (tmp, (index + 1) % 256)
    else readSEQ Data n (i + 1) ((index + 1) % 256) tmp

/-- Header parsing of both state machines: `index = 3`, `tmp = 0`, the loop, then
`if (Data[index++] != ':') return false`.  `none` is `return false`; otherwise
the sequence number `tmp` and the index of the first payload byte. -/
def parseHeader (Data : List Nat) : Option (Nat × Nat) :=
  match readSEQ Data 4 4 3 0 with
  | none => none
  | some (tmp, index) =>
    if Data.getD index 0 ≠ 58 then none else some (tmp, (index + 1) % 256)

/-! ## Flash memory -/

/-- A command sent to the flash chip. -/
inductive FlashOp where
  /-- Block erase of the 32K block at a 24-bit address. -/
  | erase32K (addr : Nat)
  /-- Byte/page program: a 24-bit start address followed by the data bytes. -/
  | program (addr : Nat) (data : List Nat)
  deriving DecidableEq, Repr

/-- The method `SPIFlash::writeByte(long addr, uint8_t byt)`: the program command with the
three address bytes `addr>>16, addr>>8, addr` and one data byte. -/
def SPIFlash.writeByte (flash : List FlashOp) (addr byt : Nat) : List FlashOp :=
  flash ++ [FlashOp.program (addr % 16777216) [byt % 256]]

/-- The method `SPIFlash::writeBytes(long addr, const void* buf, uint16_t len)`: the program
command with the three address bytes and `len` data bytes. -/
def SPIFlash.writeBytes (flash : List FlashOp) (addr : Nat) (buf : List Nat) (len : Nat) :
    List FlashOp :=
  flash ++ [FlashOp.program (addr % 16777216)
    ((List.range len).map (fun i => buf.getD i 0 % 256))]

/-- The method `SPIFlash::blockErase32K(long addr)`. -/
def SPIFlash.blockErase32K (flash : List FlashOp) (addr : Nat) : List FlashOp :=
  flash ++ [FlashOp.erase32K (addr % 16777216)]

/-- Address programmed by the `i`-th data byte of a program command: bytes past
a 256-byte page boundary wrap around to the beginning of that same page. -/
def pageAddr (addr i : Nat) : Nat := addr / 256 * 256 + (addr + i) % 256

/-- The addresses programmed by a command, in order. -/
def FlashOp.offsets : FlashOp → List Nat
  | FlashOp.erase32K _ => []
  | FlashOp.program addr data => (List.range data.length).map (pageAddr addr)

/-- Programming of the data bytes of one command from byte number `i` on: a
program operation can only turn 1 bits into 0 bits. -/
def programFrom (addr : Nat) : List Nat → Nat → (Nat → Nat) → (Nat → Nat)
  | [], _, mem => mem
  | b :: bs, i, mem =>
    programFrom addr bs (i + 1) (fun a => if a = pageAddr addr i then mem a &&& b else mem a)

/-- Effect of one command on the content of the chip, as the comments of
`SPIFlash.cpp` describe the device: an erase resets every byte of the block to
`0xFF`, a program can only clear bits, and pages are 256 bytes. -/
def chipStep (mem : Nat → Nat) : FlashOp → (Nat → Nat)
  | FlashOp.erase32K addr => fun a => if a / 32768 = addr / 32768 then 255 else mem a
  | FlashOp.program addr data => programFrom addr data 0 mem

/-- Content of the chip after a list of commands, from content `mem`. -/
def storage (mem : Nat → Nat) (ops : List FlashOp) : Nat → Nat :=
  ops.foldl chipStep mem

/-! ## Receiver: `HandleWirelessHEXData` -/

/-- Result of running a loop: still in the loop, or returned with a result. -/
inductive Outcome (σ : Type) where
  | running (s : σ)
  | returned (result : Bool) (s : σ)
  deriving DecidableEq, Repr

/-- The state carried by an outcome. -/
def Outcome.state {σ : Type} : Outcome σ → σ
  | Outcome.running s => s
  | Outcome.returned _ s => s

/-- Whether the routine has returned success. -/
def Outcome.success {σ : Type} : Outcome σ → Bool
  | Outcome.running _ => false
  | Outcome.returned b _ => b

/-- What one pass through the receiver loop observes: the radio (`ReceiveComplete`,
`CRCPass`, `GetSender`, `*DataLen`, `Data`) and the clock, `msGood` being the
value of `millis()` at `now = millis()` and `msCheck` its value in the timeout
test.  `Data` is the receive buffer: it may hold stale bytes after the first
`dataLen`, and it is taken to keep the received frame during the pass. -/
structure RxInput where
  receiveComplete : Bool
  crcPass : Bool
  sender : Nat
  dataLen : Nat
  Data : List Nat
  msGood : Nat
  msCheck : Nat
  deriving DecidableEq, Repr

/-- Local variables of `HandleWirelessHEXData` and what it has done so far: the
commands sent to the flash chip, the payloads passed to `radio.SendACK`, and
(for stating properties) the payloads of the data frames it acknowledged. -/
structure RxState where
  now : Nat
  seq : Nat
  bytesFlashed : Nat
  flash : List FlashOp
  sent : List (List Nat)
  acked : List (List Nat)
  deriving DecidableEq, Repr

/-- The value `millis()-now` (unsigned 32-bit arithmetic). -/
def elapsed (ms now : Nat) : Nat := (4294967296 + ms - now % 4294967296) % 4294967296

/-- The loop `for(byte i=index;i<dataLen;i++) flash.writeByte(bytesFlashed++, radio.Data[i])`
with `n` iterations left. -/
def flashPayload (Data : List Nat) : Nat → Nat → Nat → List FlashOp → Nat × List FlashOp
  | 0, _, bytesFlashed, flash => (bytesFlashed, flash)
  | n + 1, i, bytesFlashed, flash =>
    flashPayload Data n (i + 1) ((bytesFlashed + 1) % 65536)
      (SPIFlash.writeByte flash bytesFlashed (Data.getD i 0))

/-- The bytes `Data[index], ..., Data[dataLen-1]` of a frame. -/
def payloadOf (Data : List Nat) (dataLen index : Nat) : List Nat :=
  (List.range (dataLen - index)).map (fun k => Data.getD (index + k) 0)

/-- The branch `if (radio.Data[3]==':' && dataLen >= 7)` of the receiver. -/
def rxData (st : RxState) (inp : RxInput) : Outcome RxState :=
  if inp.Data.getD 3 0 = 58 ∧ 7 ≤ inp.dataLen then
    match parseHeader inp.Data with
    | none => Outcome.returned false st
    | some (tmp, index) =>
      if tmp = st.seq then
        let r := flashPayload inp.Data (inp.dataLen - index) index st.bytesFlashed st.flash
        Outcome.running
          { now := inp.msGood
            seq := (st.seq + 1) % 65536
            bytesFlashed := r.1
            flash := r.2
            sent := st.sent ++ [sprintfOK tmp]
            acked := st.acked ++ [payloadOf inp.Data inp.dataLen index] }
      else Outcome.running { st with now := inp.msGood }
  else Outcome.running st

/-- The branch `if (radio.Data[3]=='?')` of the receiver. -/
def rxQuery (st : RxState) (inp : RxInput) : Outcome RxState :=
  if inp.Data.getD 3 0 = 63 then
    let st1 : RxState := if inp.dataLen = 4 then { st with sent := st.sent ++ [FLX_OK] } else st
    if inp.dataLen = 7 ∧ inp.Data.getD 4 0 = 69 ∧ inp.Data.getD 5 0 = 79 ∧
        inp.Data.getD 6 0 = 70 then
      if (65536 + st1.bytesFlashed - 10) % 65536 > 31744 then Outcome.returned false st1
      else
        Outcome.returned true
          { st1 with
            sent := st1.sent ++ [FLX_OK]
            flash :=
              SPIFlash.writeByte
                (SPIFlash.writeByte
                  (SPIFlash.writeByte st1.flash 7 ((65536 + st1.bytesFlashed - 10) % 65536 / 256))
                  8 ((65536 + st1.bytesFlashed - 10) % 65536))
                9 58 }
    else Outcome.running st1
  else Outcome.running st

/-- What the receiver does with a received packet: the body of
`if (radio.ReceiveComplete() && radio.CRCPass() && radio.GetSender() == remoteID)`. -/
def rxPacket (st : RxState) (inp : RxInput) : Outcome RxState :=
  if 4 ≤ inp.dataLen ∧ inp.Data.getD 0 0 = 70 ∧ inp.Data.getD 1 0 = 76 ∧
      inp.Data.getD 2 0 = 88 then
    match rxData st inp with
    | Outcome.returned b s => Outcome.returned b s
    | Outcome.running s => rxQuery s inp
  else Outcome.running st

/-- One pass through the `while(1)` loop of `HandleWirelessHEXData`. -/
def rxLoopBody (remoteID : Nat) (st : RxState) (inp : RxInput) : Outcome RxState :=
  match
    (if inp.receiveComplete = true ∧ inp.crcPass = true ∧ inp.sender = remoteID then
      rxPacket st inp
    else Outcome.running st) with
  | Outcome.returned b s => Outcome.returned b s
  | Outcome.running s =>
    if elapsed inp.msCheck s.now > 3000 then Outcome.returned false s
    else Outcome.running s

/-- The part of `HandleWirelessHEXData` before the loop: acknowledge the
handshake, erase block 0, write the marker and the sentinel, read the clock. -/
def rxStart (flash : List FlashOp) (ms : Nat) : RxState :=
  { now := ms
    seq := 0
    bytesFlashed := 10
    flash :=
      SPIFlash.writeByte
        (SPIFlash.writeBytes (SPIFlash.blockErase32K flash 0) 0 FLXIMG 7) 9 58
    sent := [FLX_OK]
    acked := [] }

/-- A loop run over the successive observations of its passes; it is still
`running` when the observations end before the loop returns. -/
def runLoop {σ ι : Type} (body : σ → ι → Outcome σ) : σ → List ι → Outcome σ
  | s, [] => Outcome.running s
  | s, i :: rest =>
    match body s i with
    | Outcome.running s1 => runLoop body s1 rest
    | Outcome.returned b s1 => Outcome.returned b s1

/-- The function `boolean HandleWirelessHEXData(RFM12B radio, byte remoteID, SPIFlash flash, ...)`
run against the observations `ins`; `flash` holds the commands sent to the chip
before the call and `ms` is the first clock reading. -/
def HandleWirelessHEXData (remoteID : Nat) (flash : List FlashOp) (ms : Nat)
    (ins : List RxInput) : Outcome RxState :=
  runLoop (rxLoopBody remoteID) (rxStart flash ms) ins

/-! ## Host relay: `HandleSerialHEXData` -/

/-- What one pass through the host loop observes: the line read by
`readSerialLine` (its length and the buffer `input`), the clock (`msGood` at
`now = millis()`, `msCheck` in the timeout test), and the results of the radio
exchanges `sendHEXPacket` and `HandleSerialHandshake`, which the remote node
and the radio decide. -/
structure TxInput where
  inputLen : Nat
  input : List Nat
  msGood : Nat
  msCheck : Nat
  sendOK : Bool
  handshakeOK : Bool
  deriving DecidableEq, Repr

/-- Local variables of `HandleSerialHEXData` and what it has done so far: the
lines printed to the serial peer and the frames handed to the radio. -/
structure TxState where
  now : Nat
  seq : Nat
  serial : List (List Nat)
  radio : List (List Nat)
  deriving DecidableEq, Repr

/-- The text printed when the host times out. -/
def timeoutMessage : List Nat :=
  "Timeout receiving FLASH image from SERIAL, aborting...".toList.map Char.toNat

/-- The branch `if (input[3]==':')` of the host. -/
def txData (st : TxState) (inp : TxInput) : Outcome TxState :=
  if inp.input.getD 3 0 = 58 then
    match parseHeader inp.input with
    | none => Outcome.returned false st
    | some (tmp, index) =>
      let hexDataLen :=
        validateHEXData (inp.input.drop index) ((65536 + inp.inputLen - index) % 65536 % 256)
      if 0 < hexDataLen then
        if tmp = st.seq then
          let sendBuf := prepareSendBuffer (inp.input.drop (index + 8)) hexDataLen st.seq
          if inp.sendOK = true then
            Outcome.running
              { now := inp.msGood
                seq := (st.seq + 1) % 65536
                serial := st.serial ++ [sprintfOK st.seq]
                radio := st.radio ++ [sendBuf.1.take sendBuf.2] }
          else
            Outcome.returned false
              { st with now := inp.msGood, radio := st.radio ++ [sendBuf.1.take sendBuf.2] }
        else Outcome.running { st with now := inp.msGood }
      else Outcome.running { st with now := inp.msGood, serial := st.serial ++ [FLX_INV] }
  else Outcome.running st

/-- The handling of a non-empty line by the host, up to the label `timeoutcheck`. -/
def txLine (st : TxState) (inp : TxInput) : Outcome TxState :=
  if 6 ≤ inp.inputLen ∧ inp.input.getD 0 0 = 70 ∧ inp.input.getD 1 0 = 76 ∧
      inp.input.getD 2 0 = 88 then
    match txData st inp with
    | Outcome.returned b s => Outcome.returned b s
    | Outcome.running s =>
      if inp.inputLen = 7 ∧ inp.input.getD 3 0 = 63 ∧ inp.input.getD 4 0 = 69 ∧
          inp.input.getD 5 0 = 79 ∧ inp.input.getD 6 0 = 70 then
        Outcome.returned inp.handshakeOK { s with radio := s.radio ++ [FLX_EOF] }
      else Outcome.running s
  else Outcome.running st

/-- One pass through the `while(1)` loop of `HandleSerialHEXData`. -/
def txLoopBody (TIMEOUT : Nat) (st : TxState) (inp : TxInput) : Outcome TxState :=
  match (if inp.inputLen = 0 then Outcome.running st else txLine st inp) with
  | Outcome.returned b s => Outcome.returned b s
  | Outcome.running s =>
    if elapsed inp.msCheck s.now > TIMEOUT then
      Outcome.returned false { s with serial := s.serial ++ [timeoutMessage] }
    else Outcome.running s

/-- The function `boolean HandleSerialHEXData(...)` run against the observations `ins`, `ms`
being the first clock reading. -/
def HandleSerialHEXData (TIMEOUT ms : Nat) (ins : List TxInput) : Outcome TxState :=
  runLoop (txLoopBody TIMEOUT) { now := ms, seq := 0, serial := [], radio := [] } ins

/-! ## Frames and sessions used to state the properties -/

/-- The radio frame `FLX:<seq>:<payload>` as the host builds it with
`prepareSendBuffer` from the hex text of the payload. -/
def dataFrame (seq : Nat) (payload : List Nat) : List Nat :=
  (prepareSendBuffer (hexString payload) payload.length seq).1

/-- A packet received complete, with a good CRC, from `sender`, holding exactly
the bytes `data`, the clock reading `ms` throughout the pass. -/
def received (sender : Nat) (data : List Nat) (ms : Nat) : RxInput :=
  { receiveComplete := true
    crcPass := true
    sender := sender
    dataLen := data.length
    Data := data
    msGood := ms
    msCheck := ms }

/-- A serial line holding exactly the characters `line`, followed by its
terminating zero, the clock reading `ms` throughout the pass. -/
def serialLine (line : List Nat) (ms : Nat) : TxInput :=
  { inputLen := line.length
    input := line ++ [0]
    msGood := ms
    msCheck := ms
    sendOK := true
    handshakeOK := true }

/-- The commands with which a receiver session begins: erase block 0, program
the marker at offset 0, program the sentinel at offset 9. -/
def sessionStartOps : List FlashOp :=
  [FlashOp.erase32K 0, FlashOp.program 0 FLXIMG, FlashOp.program 9 [58]]

/-- The program commands of the payload loop for the bytes `bytes`, the first
of them at `bytesFlashed`. -/
def payloadOps : Nat → List Nat → List FlashOp
  | _, [] => []
  | bytesFlashed, b :: bs =>
    FlashOp.program (bytesFlashed % 16777216) [b % 256] ::
      payloadOps ((bytesFlashed + 1) % 65536) bs

/-- The commands with which a successful `FLX?EOF` ends a session in which `n`
payload bytes were counted: the length field and the sentinel. -/
def commitOps (n : Nat) : List FlashOp :=
  [FlashOp.program 7 [n % 65536 / 256], FlashOp.program 8 [n % 65536 % 256],
    FlashOp.program 9 [58]]

/-- The receiver between two passes of its loop: `bytesFlashed` counts the
acknowledged payload bytes from 10 (in 16 bits) and the commands sent to the
chip are those of the session start followed by the payload bytes in order. -/
def RxInv (flash0 : List FlashOp) (st : RxState) : Prop :=
  st.bytesFlashed = (10 + st.acked.flatten.length) % 65536 ∧
  st.flash = flash0 ++ sessionStartOps ++ payloadOps 10 st.acked.flatten

/-- The receiver when the routine returns `b`: on success the length field of
the counted bytes has been committed, otherwise nothing was added. -/
def RxFinal (flash0 : List FlashOp) (b : Bool) (st : RxState) : Prop :=
  if b = true then
    st.acked.flatten.length % 65536 ≤ 31744 ∧
    st.flash = flash0 ++ sessionStartOps ++ payloadOps 10 st.acked.flatten ++
      commitOps st.acked.flatten.length
  else RxInv flash0 st

/-- What holds of every outcome of a receiver session. -/
def RxGood (flash0 : List FlashOp) : Outcome RxState → Prop
  | Outcome.running st => RxInv flash0 st
  | Outcome.returned b st => RxFinal flash0 b st

/-- Whether a command is an erase. -/
def FlashOp.isErase : FlashOp → Bool
  | FlashOp.erase32K _ => true
  | FlashOp.program _ _ => false

/-- All the addresses programmed by a list of commands, in order. -/
def writtenOffsets (ops : List FlashOp) : List Nat :=
  (ops.map FlashOp.offsets).flatten

/-- Erase before write, for the commands of one session: the first command
erases block 0, no other command is an erase, every programmed offset lies in
block 0 and no offset is programmed twice. -/
def EraseBeforeWrite (ops : List FlashOp) : Prop :=
  ops.head? = some (FlashOp.erase32K 0) ∧
  (∀ op ∈ ops.tail, op.isErase = false) ∧
  (∀ a ∈ writtenOffsets ops.tail, a < 32768) ∧
  (writtenOffsets ops.tail).Nodup

/-- Erase before write, up to the sentinel, for the commands `ops` of one
session, `success` telling whether the routine returned success. The commands
begin with the erase of block 0, the marker at offset 0 and the sentinel `':'`
at offset 9; no later command is an erase; every programmed offset lies in
block 0. In a session that does not end with success no offset is programmed
twice. In a session that ends with success the last three commands program the
length field at offsets 7 and 8 and then `':'` at offset 9 once more, and up to
that last command no offset is programmed twice. -/
def EraseBeforeWriteSentinel (ops : List FlashOp) (success : Bool) : Prop :=
  ops.take 3 = sessionStartOps ∧
  (∀ op ∈ ops.tail, op.isErase = false) ∧
  (∀ a ∈ writtenOffsets ops.tail, a < 32768) ∧
  if success = true then
    ∃ init hi lo,
      ops = init ++ [FlashOp.program 7 [hi], FlashOp.program 8 [lo], FlashOp.program 9 [58]] ∧
      (writtenOffsets (init ++ [FlashOp.program 7 [hi], FlashOp.program 8 [lo]]).tail).Nodup
  else (writtenOffsets ops.tail).Nodup

/-- The observations of a receiver that gets, one per pass, the data frames of
the payloads `payloads` numbered from `seq`. -/
def chunkInputs (sender ms : Nat) : Nat → List (List Nat) → List RxInput
  | _, [] => []
  | seq, p :: ps => received sender (dataFrame seq p) ms :: chunkInputs sender ms (seq + 1) ps

/-- A buffer that begins with the text `"FLX:"`. -/
def startsFLXColon (Data : List Nat) : Prop :=
  Data.getD 0 0 = 70 ∧ Data.getD 1 0 = 76 ∧ Data.getD 2 0 = 88 ∧ Data.getD 3 0 = 58

/-- A decimal digit character. -/
def isDigit (c : Nat) : Prop := 48 ≤ c ∧ c ≤ 57

/-- The buffer `Data`, whose first `len` bytes are the frame or line, holds `k`
decimal digits from offset 4 on and a colon right behind them, inside the frame
or line. -/
def headerWithDigits (Data : List Nat) (len k : Nat) : Prop :=
  (∀ j, j < k → isDigit (Data.getD (4 + j) 0)) ∧ Data.getD (4 + k) 0 = 58 ∧ 4 + k < len

/-- A well-formed header `FLX:<seq>:` of a frame or line of `len` bytes that
begins with `FLX:`: the sequence field has one to four decimal digits and is
followed by a colon. A header that is not well formed is malformed. -/
def wellFormedHeader (Data : List Nat) (len : Nat) : Prop :=
  headerWithDigits Data len 1 ∨ headerWithDigits Data len 2 ∨
    headerWithDigits Data len 3 ∨ headerWithDigits Data len 4

/-- The sequence field of a frame or line that begins with `FLX:` is open: it is
empty (a colon at offset 4), or the frame or line has at least 8 bytes and no
colon stands at offsets 5 to 7. -/
def seqFieldOpen (Data : List Nat) (len : Nat) : Prop :=
  Data.getD 4 0 = 58 ∨
    (8 ≤ len ∧ Data.getD 5 0 ≠ 58 ∧ Data.getD 6 0 ≠ 58 ∧ Data.getD 7 0 ≠ 58)

/-- The sequence field of a frame or line of `len` bytes that begins with `FLX:`
is closed: it is not empty and a colon stands at offset 5, 6 or 7, inside the
frame or line. -/
def seqFieldClosed (Data : List Nat) (len : Nat) : Prop :=
  Data.getD 4 0 ≠ 58 ∧
    ((5 < len ∧ Data.getD 5 0 = 58) ∨ (6 < len ∧ Data.getD 6 0 = 58) ∨
      (7 < len ∧ Data.getD 7 0 = 58))

instance (Data : List Nat) : Decidable (startsFLXColon Data) := by
  unfold startsFLXColon
  infer_instance

instance (c : Nat) : Decidable (isDigit c) := by
  unfold isDigit
  infer_instance

instance (Data : List Nat) (len k : Nat) : Decidable (headerWithDigits Data len k) := by
  unfold headerWithDigits
  infer_instance

instance (Data : List Nat) (len : Nat) : Decidable (wellFormedHeader Data len) := by
  unfold wellFormedHeader
  infer_instance

instance (Data : List Nat) (len : Nat) : Decidable (seqFieldOpen Data len) := by
  unfold seqFieldOpen
  infer_instance

instance (Data : List Nat) (len : Nat) : Decidable (seqFieldClosed Data len) := by
  unfold seqFieldClosed
  infer_instance

instance (ops : List FlashOp) : Decidable (EraseBeforeWrite ops) := by
  unfold EraseBeforeWrite
  infer_instance

/-! ## Receiver entry: `CheckForWirelessHEX` -/

/-- A buffer that begins with the text `"FLX?"`. -/
def startsFLXQuery (Data : List Nat) : Prop :=
  Data.getD 0 0 = 70 ∧ Data.getD 1 0 = 76 ∧ Data.getD 2 0 = 88 ∧ Data.getD 3 0 = 63

instance (Data : List Nat) : Decidable (startsFLXQuery Data) := by
  unfold startsFLXQuery
  infer_instance

/-- What `CheckForWirelessHEX` has done: the messages it passed itself to
`radio.Send` (destination and payload), the commands sent to the flash chip,
the session of `HandleWirelessHEXData` it started, if any, and whether it went
on to `resetUsingWatchdog`. -/
structure CheckResult where
  replies : List (Nat × List Nat)
  flash : List FlashOp
  session : Option (Outcome RxState)
  reboot : Bool
  deriving DecidableEq, Repr

/-- The function `void CheckForWirelessHEX(RFM12B radio, SPIFlash flash, boolean DEBUG)`,
called with the message `msg` in the radio; `flash` holds the commands sent to
the chip before the call, and `ms`, `ins` are the clock reading and the
observations of the session, if one is started. -/
def CheckForWirelessHEX (msg : RxInput) (flash : List FlashOp) (ms : Nat)
    (ins : List RxInput) : CheckResult :=
  if 4 ≤ msg.dataLen ∧ msg.Data.getD 0 0 = 70 ∧ msg.Data.getD 1 0 = 76 ∧
      msg.Data.getD 2 0 = 88 ∧ msg.Data.getD 3 0 = 63 then
    if msg.dataLen = 7 ∧ msg.Data.getD 4 0 = 69 ∧ msg.Data.getD 5 0 = 79 ∧
        msg.Data.getD 6 0 = 70 then
      { replies := [(msg.sender, FLX_OK)], flash := flash, session := none, reboot := false }
    else
      match HandleWirelessHEXData msg.sender flash ms ins with
      | Outcome.returned true st =>
        { replies := [], flash := st.flash, session := some (Outcome.returned true st),
          reboot := true }
      | Outcome.returned false st =>
        { replies := [], flash := SPIFlash.blockErase32K st.flash 0,
          session := some (Outcome.returned false st), reboot := false }
      | Outcome.running st =>
        { replies := [], flash := st.flash, session := some (Outcome.running st),
          reboot := false }
  else { replies := [], flash := flash, session := none, reboot := false }

/-! ## Bounds-checked reads -/

/-- The read `buf[i]` of a buffer whose first `len` bytes are the frame: `none`
when `i` is not below `len`. -/
def readAt (buf : List Nat) (len i : Nat) : Option Nat :=
  if i < len then some (buf.getD i 0) else none

/-- The test `buf[i] == c` on a checked read. -/
def testAt (buf : List Nat) (len i c : Nat) : Option Bool :=
  match readAt buf len i with
  | none => none
  | some b => some (decide (b = c))

/-- The operator `&&` on tests with checked reads: the right operand is only
evaluated, and its reads only happen, when the left one is true. -/
def andThen (a b : Option Bool) : Option Bool :=
  match a with
  | none => none
  | some false => some false
  | some true => b

/-- The loop of `readSEQ` with every read `Data[i]` checked against `len`; the
outer `none` is a read at an index not below `len`. -/
def readSEQChecked (Data : List Nat) (len : Nat) :
    Nat → Nat → Nat → Nat → Option (Option (Nat × Nat))
  | 0, _, index, tmp => some (some (tmp, index))
  | n + 1, i, index, tmp =>
    match readAt Data len i with
    | none => none
    | some c =>
      if 48 ≤ c ∧ c ≤ 57 then
        readSEQChecked Data len n (i + 1) ((index + 1) % 256) ((tmp * 10 + c - 48) % 65536)
      else if c = 58 then
        if i = 4 then some none else some (some (tmp, (index + 1) % 256))
      else readSEQChecked Data len n (i + 1) ((index + 1) % 256) tmp

/-- The header parsing `parseHeader` with every read checked against `len`; the
outer `none` is a read at an index not below `len`. -/
def parseHeaderChecked (Data : List Nat) (len : Nat) : Option (Option (Nat × Nat)) :=
  match readSEQChecked Data len 4 4 3 0 with
  | none => none
  | some none => some none
  | some (some (tmp, index)) =>
    match readAt Data len index with
    | none => none
    | some c => if c ≠ 58 then some none else some (some (tmp, (index + 1) % 256))

/-- The payload loop `for(byte i=index;i<dataLen;i++) ... radio.Data[i]` with `n`
iterations left and every read checked against `len`. -/
def payloadChecked (Data : List Nat) (len : Nat) : Nat → Nat → Option (List Nat)
  | 0, _ => some []
  | n + 1, i =>
    match readAt Data len i with
    | none => none
    | some b =>
      match payloadChecked Data len n (i + 1) with
      | none => none
      | some bs => some (b :: bs)

/-- What the parsing of a frame or line leads to. -/
inductive Parsed where
  /-- Not of the form `FLX:...`, or too short: no header is parsed. -/
  | skipped
  /-- The header parser ran into `return false`. -/
  | returnFalse
  /-- The header gave the sequence number `tmp` and the payload index `index`;
  `payload` is what the receiver reads from there on. -/
  | header (tmp index : Nat) (payload : List Nat)
  deriving DecidableEq, Repr

/-- The parsing of a received frame by `HandleWirelessHEXData`, from
`dataLen >= 4 && radio.Data[0]=='F' ...` to the payload loop, with every read
of `radio.Data` checked against `dataLen`; `none` is a read at an index not
below `dataLen`.  The payload is read whatever the sequence number. -/
def rxParseChecked (inp : RxInput) : Option Parsed :=
  match andThen (some (decide (4 ≤ inp.dataLen)))
      (andThen (testAt inp.Data inp.dataLen 0 70)
        (andThen (testAt inp.Data inp.dataLen 1 76) (testAt inp.Data inp.dataLen 2 88))) with
  | none => none
  | some false => some Parsed.skipped
  | some true =>
    match andThen (testAt inp.Data inp.dataLen 3 58) (some (decide (7 ≤ inp.dataLen))) with
    | none => none
    | some false => some Parsed.skipped
    | some true =>
      match parseHeaderChecked inp.Data inp.dataLen with
      | none => none
      | some none => some Parsed.returnFalse
      | some (some (tmp, index)) =>
        match payloadChecked inp.Data inp.dataLen (inp.dataLen - index) index with
        | none => none
        | some payload => some (Parsed.header tmp index payload)

/-- The header parsing of a serial line by `HandleSerialHEXData`, from
`inputLen >= 6` to `if (input[index++] != ':') return false`, with every read of
`input` checked against `inputLen`; `none` is a read at an index not below
`inputLen`. -/
def txParseChecked (inp : TxInput) : Option Parsed :=
  match andThen (some (decide (6 ≤ inp.inputLen)))
      (andThen (testAt inp.input inp.inputLen 0 70)
        (andThen (testAt inp.input inp.inputLen 1 76)
          (andThen (testAt inp.input inp.inputLen 2 88)
            (testAt inp.input inp.inputLen 3 58)))) with
  | none => none
  | some false => some Parsed.skipped
  | some true =>
    match parseHeaderChecked inp.input inp.inputLen with
    | none => none
    | some none => some Parsed.returnFalse
    | some (some (tmp, index)) => some (Parsed.header tmp index [])

/-! ## The send buffer of the host -/

/-- The indices of `buf` written by `prepareSendBuffer`: `sprintf` writes the
header and its terminating zero (indices `0..seqLen`), the loop writes
`buf[seqLen+i]` for `i < length`. -/
def sendBufIndices (length seq : Nat) : List Nat :=
  List.range ((sprintfHeader seq).length + 1) ++
    (List.range length).map (fun i => (sprintfHeader seq).length % 256 + i)

/-! ## Facts about the codec -/

theorem xor_ffff (s : Nat) (h : s < 65536) : s ^^^ 65535 = 65535 - s := by
  apply Nat.eq_of_testBit_eq
  intro i
  have h2 : 65535 - s = 2 ^ 16 - (s + 1) := by omega
  rw [h2, Nat.testBit_two_pow_sub_succ (by simpa using h), Nat.testBit_xor]
  have h3 : (65535 : Nat) = 2 ^ 16 - 1 := by norm_num
  rw [h3, Nat.testBit_two_pow_sub_one]
  by_cases hi : i < 16
  · simp [hi]
  · simp [hi]
    apply Nat.testBit_lt_two_pow
    calc s < 65536 := h
      _ = 2 ^ 16 := by norm_num
      _ ≤ 2 ^ i := Nat.pow_le_pow_right (by norm_num) (by omega)

theorem validateStep_none (input : List Nat) (length : Nat) (l : List Nat) :
    l.foldl (validateStep input length) none = none := by
  induction l with
  | nil => rfl
  | cons a l ih => simpa [validateStep] using ih

/-- The state of the validation loop after `n` iterations. -/
theorem validateLoop_upto (input : List Nat) (length : Nat) (hev : length % 2 = 0)
    (h2 : 2 ≤ length) (n : Nat) :
    (List.range n).foldl (validateStep input length) (some 0) =
      if ∀ j < n, isHEX (input.getD j 0) = true then
        some (pairSum input (min (n / 2) (length / 2 - 1)) % 65536)
      else none := by
  induction n with
  | zero => simp [pairSum]
  | succ n ih =>
    rw [List.range_succ, List.foldl_append, ih]
    by_cases hall : ∀ j < n, isHEX (input.getD j 0) = true
    · rw [if_pos hall]
      by_cases hn : isHEX (input.getD n 0) = true
      · have hall2 : ∀ j < n + 1, isHEX (input.getD j 0) = true := by
          intro j hj
          rcases Nat.lt_succ_iff_lt_or_eq.mp hj with h | h
          · exact hall j h
          · rw [h]; exact hn
        rw [if_pos hall2]
        simp only [List.foldl_cons, List.foldl_nil, validateStep, hn, Bool.not_true,
          Bool.false_eq_true, if_false]
        by_cases hc : n % 2 = 1 ∧ n < length - 2
        · rw [if_pos hc]
          obtain ⟨k, hk⟩ : ∃ k, n = 2 * k + 1 := ⟨n / 2, by omega⟩
          subst hk
          have e1 : (2 * k + 1 + 1) / 2 = k + 1 := by omega
          have e2 : (2 * k + 1) / 2 = k := by omega
          have e3 : min (k + 1) (length / 2 - 1) = k + 1 := by
            apply Nat.min_eq_left; omega
          have e4 : min k (length / 2 - 1) = k := by
            apply Nat.min_eq_left; omega
          rw [e1, e2, e3, e4]
          simp only [pairSum, pairByte, Nat.add_sub_cancel]
          rw [Nat.mod_add_mod]
        · rw [if_neg hc]
          have e : min ((n + 1) / 2) (length / 2 - 1) = min (n / 2) (length / 2 - 1) := by
            omega
          rw [e]
      · have hall2 : ¬ ∀ j < n + 1, isHEX (input.getD j 0) = true := by
          intro h; exact hn (h n (Nat.lt_succ_self n))
        rw [if_neg hall2]
        have hn2 : isHEX (input.getD n 0) = false := Bool.eq_false_iff.mpr hn
        simp only [List.foldl_cons, List.foldl_nil, validateStep, hn2, Bool.not_false,
          if_true]
    · rw [if_neg hall]
      have hall2 : ¬ ∀ j < n + 1, isHEX (input.getD j 0) = true := by
        intro h; exact hall (fun j hj => h j (Nat.lt_succ_of_lt hj))
      rw [if_neg hall2]
      exact validateStep_none input length [n]

theorem validateLoop_eq (input : List Nat) (length : Nat) (hev : length % 2 = 0)
    (h2 : 2 ≤ length) :
    validateLoop input length =
      if ∀ j < length, isHEX (input.getD j 0) = true then
        some (pairSum input (length / 2 - 1) % 65536)
      else none := by
  unfold validateLoop
  rw [validateLoop_upto input length hev h2 length]
  have e : min (length / 2) (length / 2 - 1) = length / 2 - 1 := by omega
  rw [e]

theorem checksum_low8 (s : Nat) :
    ((s % 65536 ^^^ 0xFFFF) + 1) % 65536 % 256 = twosComplementLow8 s := by
  have h : s % 65536 < 65536 := Nat.mod_lt _ (by norm_num)
  rw [xor_ffff _ h]
  unfold twosComplementLow8
  omega

theorem lastPair_eq (input : List Nat) (length : Nat) (hev : length % 2 = 0)
    (h2 : 2 ≤ length) :
    BYTEfromHEX (input.getD (length - 2) 0) (input.getD (length - 1) 0)
      = pairByte input (length / 2 - 1) := by
  have e1 : length - 2 = 2 * (length / 2 - 1) := by omega
  have e2 : length - 1 = 2 * (length / 2 - 1) + 1 := by omega
  rw [e1, e2]
  rfl

theorem validateHEXData_accept (input : List Nat) (length : Nat)
    (h : Accepted input length) : validateHEXData input length = pairByte input 0 := by
  obtain ⟨hge, hev, hall, hc, hl⟩ := h
  unfold validateHEXData
  rw [if_neg (by omega), validateLoop_eq input length hev (by omega), if_pos hall]
  simp only [checksum_low8]
  rw [lastPair_eq input length hev (by omega)]
  have e4 : BYTEfromHEX (input.getD 0 0) (input.getD 1 0) = pairByte input 0 := rfl
  rw [e4, if_neg (by simp [hc]), if_neg (by omega)]

theorem validateHEXData_reject (input : List Nat) (length : Nat)
    (h : ¬ Accepted input length) : validateHEXData input length = 0 := by
  unfold validateHEXData
  by_cases h12 : length < 12 ∨ length % 2 ≠ 0
  · rw [if_pos h12]
  · rw [if_neg h12]
    have hev : length % 2 = 0 := by omega
    have hge : 12 ≤ length := by omega
    rw [validateLoop_eq input length hev (by omega)]
    by_cases hall : ∀ j < length, isHEX (input.getD j 0) = true
    · rw [if_pos hall]
      simp only [checksum_low8]
      rw [lastPair_eq input length hev (by omega)]
      have e4 : BYTEfromHEX (input.getD 0 0) (input.getD 1 0) = pairByte input 0 := rfl
      rw [e4]
      by_cases hc : twosComplementLow8 (pairSum input (length / 2 - 1))
          = pairByte input (length / 2 - 1)
      · have hl : length ≠ pairByte input 0 * 2 + 10 := by
          intro hl
          exact h ⟨hge, hev, hall, hc, by omega⟩
        rw [if_neg (by simp [hc]), if_pos hl]
      · rw [if_pos hc]
    · rw [if_neg hall]

theorem validateHEXData_pos (input : List Nat) (length : Nat)
    (h : Accepted input length) : pairByte input 0 ≠ 0 := by
  obtain ⟨hge, _, _, _, hl⟩ := h
  omega


/-! ### Encoding and decoding -/

theorem hexDigit_isHEX (n : Nat) (h : n < 16) : isHEX (hexDigit n) = true := by
  unfold isHEX hexDigit
  split <;> simp <;> omega

theorem nibble_hexDigit (n : Nat) (h : n < 16) : nibble (hexDigit n) = n := by
  unfold nibble hexDigit
  split <;> split <;> omega

theorem BYTEfromHEX_hexDigit (b : Nat) (h : b < 256) :
    BYTEfromHEX (hexDigit (b / 16)) (hexDigit (b % 16)) = b := by
  unfold BYTEfromHEX
  rw [nibble_hexDigit _ (by omega), nibble_hexDigit _ (by omega)]
  omega

theorem hexString_length (bs : List Nat) : (hexString bs).length = 2 * bs.length := by
  induction bs with
  | nil => rfl
  | cons b bs ih => simp only [hexString, List.length_cons, ih]; omega

theorem hexString_append (as bs : List Nat) :
    hexString (as ++ bs) = hexString as ++ hexString bs := by
  induction as with
  | nil => rfl
  | cons a as ih =>
    show hexDigit (a / 16) :: hexDigit (a % 16) :: hexString (as ++ bs) = _
    rw [ih]
    rfl

theorem hexString_getD_even (bs : List Nat) (k : Nat) (h : k < bs.length) :
    (hexString bs).getD (2 * k) 0 = hexDigit (bs.getD k 0 / 16) := by
  induction bs generalizing k with
  | nil => simp at h
  | cons b bs ih =>
    cases k with
    | zero => rfl
    | succ k =>
      have e : 2 * (k + 1) = (2 * k + 1) + 1 := by omega
      rw [e]
      simp only [hexString, List.getD_cons_succ]
      exact ih k (by simpa using h)

theorem hexString_getD_odd (bs : List Nat) (k : Nat) (h : k < bs.length) :
    (hexString bs).getD (2 * k + 1) 0 = hexDigit (bs.getD k 0 % 16) := by
  induction bs generalizing k with
  | nil => simp at h
  | cons b bs ih =>
    cases k with
    | zero => rfl
    | succ k =>
      have e : 2 * (k + 1) + 1 = (2 * k + 1 + 1) + 1 := by omega
      rw [e]
      simp only [hexString, List.getD_cons_succ]
      exact ih k (by simpa using h)

theorem getD_lt_of_forall (bs : List Nat) (m : Nat) (hb : ∀ b ∈ bs, b < m) (k : Nat)
    (h : k < bs.length) : bs.getD k 0 < m := by
  rw [List.getD_eq_getElem bs 0 h]
  exact hb _ (List.getElem_mem h)

theorem pairByte_hexString (bs : List Nat) (hb : ∀ b ∈ bs, b < 256) (k : Nat)
    (h : k < bs.length) : pairByte (hexString bs) k = bs.getD k 0 := by
  unfold pairByte
  rw [hexString_getD_even bs k h, hexString_getD_odd bs k h]
  exact BYTEfromHEX_hexDigit _ (getD_lt_of_forall bs 256 hb k h)

theorem isHEX_hexString (bs : List Nat) (hb : ∀ b ∈ bs, b < 256) (i : Nat)
    (h : i < 2 * bs.length) : isHEX ((hexString bs).getD i 0) = true := by
  have hk : i / 2 < bs.length := by omega
  have hlt := getD_lt_of_forall bs 256 hb (i / 2) hk
  rcases Nat.mod_two_eq_zero_or_one i with h0 | h1
  · have e : i = 2 * (i / 2) := by omega
    rw [e, hexString_getD_even bs _ hk]
    exact hexDigit_isHEX _ (by omega)
  · have e : i = 2 * (i / 2) + 1 := by omega
    rw [e, hexString_getD_odd bs _ hk]
    exact hexDigit_isHEX _ (by omega)

theorem pairSum_hexString (bs : List Nat) (hb : ∀ b ∈ bs, b < 256) (k : Nat)
    (h : k ≤ bs.length) : pairSum (hexString bs) k = (bs.take k).sum := by
  induction k with
  | zero => simp [pairSum]
  | succ k ih =>
    have hk : k < bs.length := h
    rw [pairSum, ih (Nat.le_of_lt hk), pairByte_hexString bs hb k hk,
      List.sum_take_succ bs k hk, List.getD_eq_getElem bs 0 hk]

theorem decodeHEX_hexString (bs rest : List Nat) (hb : ∀ b ∈ bs, b < 256) :
    decodeHEX (hexString (bs ++ rest)) bs.length = bs := by
  unfold decodeHEX
  apply List.ext_getElem
  · simp
  · intro i h1 h2
    have hi : i < bs.length := h2
    have hi2 : 2 * i + 1 < (hexString bs).length := by rw [hexString_length]; omega
    have hi3 : 2 * i < (hexString bs).length := by omega
    simp only [List.getElem_map, List.getElem_range, hexString_append]
    rw [Nat.mul_comm i 2, List.getD_append _ _ _ _ hi3, List.getD_append _ _ _ _ hi2]
    have := pairByte_hexString bs hb i hi
    unfold pairByte at this
    rw [this, List.getD_eq_getElem bs 0 hi]

theorem twosComplementLow8_lt (s : Nat) : twosComplementLow8 s < 256 := by
  unfold twosComplementLow8
  omega

theorem recordBytes_lt (addr type : Nat) (payload : List Nat)
    (hn : payload.length < 256) (ht : type < 256) (ha : addr < 65536)
    (hp : ∀ b ∈ payload, b < 256) :
    ∀ b ∈ recordBytes addr type payload ++
      [twosComplementLow8 (recordBytes addr type payload).sum], b < 256 := by
  intro b hb
  simp only [recordBytes, List.cons_append, List.nil_append, List.mem_cons, List.mem_append,
    List.mem_singleton, List.not_mem_nil, or_false] at hb
  rcases hb with h | h | h | h | h | h
  · omega
  · omega
  · omega
  · omega
  · exact hp b h
  · rw [h]; exact twosComplementLow8_lt _

theorem encodeRecord_accepted (addr type : Nat) (payload : List Nat)
    (h1 : 1 ≤ payload.length) (hn : payload.length < 256) (ht : type < 256)
    (ha : addr < 65536) (hp : ∀ b ∈ payload, b < 256) :
    Accepted (encodeRecord addr type payload) (2 * payload.length + 10) ∧
      pairByte (encodeRecord addr type payload) 0 = payload.length := by
  have hb := recordBytes_lt addr type payload hn ht ha hp
  have hlen : (recordBytes addr type payload).length = payload.length + 4 := by
    simp [recordBytes]
  have hlen2 : (recordBytes addr type payload ++
      [twosComplementLow8 (recordBytes addr type payload).sum]).length
        = payload.length + 5 := by
    simp [hlen]
  have h0 : pairByte (encodeRecord addr type payload) 0 = payload.length := by
    unfold encodeRecord
    rw [pairByte_hexString _ hb 0 (by omega)]
    rfl
  refine ⟨⟨by omega, by omega, ?_, ?_, ?_⟩, h0⟩
  · intro i hi
    exact isHEX_hexString _ hb i (by omega)
  · have e : (2 * payload.length + 10) / 2 - 1 = payload.length + 4 := by omega
    rw [e]
    unfold encodeRecord
    rw [pairSum_hexString _ hb _ (by omega), pairByte_hexString _ hb _ (by omega),
      List.take_append_of_le_length (by omega), List.take_of_length_le (by omega)]
    rw [List.getD_eq_getElem _ 0 (by omega)]
    simp [hlen]
  · rw [h0]

theorem encodeRecord_drop (addr type : Nat) (payload : List Nat) :
    (encodeRecord addr type payload).drop 8 =
      hexString (payload ++ [twosComplementLow8 (recordBytes addr type payload).sum]) := by
  simp [encodeRecord, recordBytes, hexString]


/-! ### Changing one character of a record -/

theorem getD_set_ne (input : List Nat) (p j c : Nat) (h : p ≠ j) :
    (input.set p c).getD j 0 = input.getD j 0 := by
  rw [List.getD_eq_getElem?_getD, List.getD_eq_getElem?_getD, List.getElem?_set_ne h]

theorem getD_set_self (input : List Nat) (p c : Nat) (h : p < input.length) :
    (input.set p c).getD p 0 = c := by
  rw [List.getD_eq_getElem?_getD, List.getElem?_set_self h]
  rfl

theorem lt_length_of_isHEX (input : List Nat) (p : Nat)
    (h : isHEX (input.getD p 0) = true) : p < input.length := by
  by_contra hp
  rw [List.getD_eq_default input 0 (Nat.le_of_not_lt hp)] at h
  exact absurd h (by decide)

theorem pairByte_set_ne (input : List Nat) (p c k : Nat) (h : k ≠ p / 2) :
    pairByte (input.set p c) k = pairByte input k := by
  unfold pairByte
  rw [getD_set_ne input p (2 * k) c (by omega), getD_set_ne input p (2 * k + 1) c (by omega)]

theorem pairSum_set_le (input : List Nat) (p c n : Nat) (h : n ≤ p / 2) :
    pairSum (input.set p c) n = pairSum input n := by
  induction n with
  | zero => rfl
  | succ n ih =>
    rw [pairSum, pairSum, ih (by omega), pairByte_set_ne input p c n (by omega)]

theorem pairSum_set_gt (input : List Nat) (p c n : Nat) (h : p / 2 < n) :
    pairSum (input.set p c) n + pairByte input (p / 2) =
      pairSum input n + pairByte (input.set p c) (p / 2) := by
  induction n with
  | zero => omega
  | succ n ih =>
    rw [pairSum, pairSum]
    rcases Nat.lt_succ_iff_lt_or_eq.mp h with h1 | h1
    · have := ih h1
      rw [pairByte_set_ne input p c n (by omega)]
      omega
    · rw [h1, pairSum_set_le input p c n (by omega)]
      omega

theorem BYTEfromHEX_inj (a b a2 b2 : Nat) (ha : isHEX a = true) (hb : isHEX b = true)
    (ha2 : isHEX a2 = true) (hb2 : isHEX b2 = true)
    (h : BYTEfromHEX a b = BYTEfromHEX a2 b2) : a = a2 ∧ b = b2 := by
  simp only [isHEX, Bool.or_eq_true, Bool.and_eq_true, decide_eq_true_eq] at ha hb ha2 hb2
  unfold BYTEfromHEX nibble at h
  split_ifs at h <;> omega

theorem pairByte_set_changed (input : List Nat) (length p c : Nat) (hp : p < length)
    (hev : length % 2 = 0)
    (hall : ∀ i < length, isHEX (input.getD i 0) = true)
    (hall2 : ∀ i < length, isHEX ((input.set p c).getD i 0) = true)
    (hc : c ≠ input.getD p 0) :
    pairByte (input.set p c) (p / 2) ≠ pairByte input (p / 2) := by
  intro heq
  unfold pairByte at heq
  have hlt := lt_length_of_isHEX input p (hall p hp)
  have h1 := hall (2 * (p / 2)) (by omega)
  have h2 := hall (2 * (p / 2) + 1) (by omega)
  have h3 := hall2 (2 * (p / 2)) (by omega)
  have h4 := hall2 (2 * (p / 2) + 1) (by omega)
  obtain ⟨e1, e2⟩ := BYTEfromHEX_inj _ _ _ _ h3 h4 h1 h2 heq
  rcases Nat.mod_two_eq_zero_or_one p with h0 | h0
  · have e : 2 * (p / 2) = p := by omega
    rw [e, getD_set_self input p c hlt] at e1
    exact hc e1
  · have e : 2 * (p / 2) + 1 = p := by omega
    rw [e, getD_set_self input p c hlt] at e2
    exact hc e2

theorem pairByte_lt (input : List Nat) (k : Nat) : pairByte input k < 256 := by
  unfold pairByte BYTEfromHEX
  omega

theorem validateHEXData_set (input : List Nat) (length p c : Nat)
    (hacc : Accepted input length) (hp : p < length) (hc : c ≠ input.getD p 0) :
    ¬ Accepted (input.set p c) length := by
  intro hacc2
  obtain ⟨hge, hev, hall, hsum, hl⟩ := hacc
  obtain ⟨_, _, hall2, hsum2, hl2⟩ := hacc2
  have hne := pairByte_set_changed input length p c hp hev hall hall2 hc
  have hb1 := pairByte_lt input (p / 2)
  have hb2 := pairByte_lt (input.set p c) (p / 2)
  by_cases hlast : p / 2 = length / 2 - 1
  · rw [pairSum_set_le input p c _ (by omega), hsum, ← hlast] at hsum2
    exact hne hsum2.symm
  · have hk : p / 2 < length / 2 - 1 := by omega
    have hs := pairSum_set_gt input p c (length / 2 - 1) hk
    rw [pairByte_set_ne input p c _ (Ne.symm hlast), ← hsum] at hsum2
    unfold twosComplementLow8 at hsum2
    omega


/-! ## Facts about the receiver -/

theorem payloadOps_append (bf : Nat) (xs ys : List Nat) (h : bf < 65536) :
    payloadOps bf (xs ++ ys) =
      payloadOps bf xs ++ payloadOps ((bf + xs.length) % 65536) ys := by
  induction xs generalizing bf with
  | nil => simp [payloadOps, Nat.mod_eq_of_lt h]
  | cons x xs ih =>
    have e : ((bf + 1) % 65536 + xs.length) % 65536 = (bf + (xs.length + 1)) % 65536 := by
      omega
    rw [List.cons_append, payloadOps, payloadOps, ih _ (Nat.mod_lt _ (by norm_num)), e,
      List.length_cons, List.cons_append]

theorem flashPayload_eq (Data : List Nat) (n i bf : Nat) (flash : List FlashOp)
    (h : bf < 65536) :
    flashPayload Data n i bf flash =
      ((bf + n) % 65536,
        flash ++ payloadOps bf ((List.range n).map (fun k => Data.getD (i + k) 0))) := by
  induction n generalizing i bf flash with
  | zero => simp [flashPayload, payloadOps, Nat.mod_eq_of_lt h]
  | succ n ih =>
    rw [flashPayload, ih _ _ _ (Nat.mod_lt _ (by norm_num))]
    rw [List.range_succ_eq_map, List.map_cons, List.map_map]
    simp only [payloadOps, SPIFlash.writeByte, List.append_assoc, List.singleton_append,
      Nat.add_zero]
    have e : ((bf + 1) % 65536 + n) % 65536 = (bf + (n + 1)) % 65536 := by omega
    rw [e]
    have e2 : (fun k => Data.getD (i + 1 + k) 0) = ((fun k => Data.getD (i + k) 0) ∘ Nat.succ) := by
      funext k
      simp only [Function.comp, Nat.succ_eq_add_one]
      congr 1
      omega
    rw [e2]

theorem runLoop_append {σ ι : Type} (body : σ → ι → Outcome σ) (s : σ) (xs ys : List ι) :
    runLoop body s (xs ++ ys) =
      match runLoop body s xs with
      | Outcome.running s1 => runLoop body s1 ys
      | Outcome.returned b s1 => Outcome.returned b s1 := by
  induction xs generalizing s with
  | nil => rfl
  | cons x xs ih =>
    rw [List.cons_append, runLoop, runLoop]
    cases h : body s x with
    | running s1 => exact ih s1
    | returned b s1 => rfl


theorem payloadOf_length (Data : List Nat) (dataLen index : Nat) :
    (payloadOf Data dataLen index).length = dataLen - index := by
  simp [payloadOf]

theorem rxStart_inv (flash0 : List FlashOp) (ms : Nat) : RxInv flash0 (rxStart flash0 ms) := by
  constructor
  · rfl
  · simp [rxStart, SPIFlash.writeByte, SPIFlash.writeBytes, SPIFlash.blockErase32K,
      sessionStartOps, payloadOps]
    decide

theorem rxData_accept_inv (flash0 : List FlashOp) (st : RxState) (inp : RxInput)
    (tmp index : Nat) (h : RxInv flash0 st) :
    RxInv flash0
      { now := inp.msGood
        seq := (st.seq + 1) % 65536
        bytesFlashed :=
          (flashPayload inp.Data (inp.dataLen - index) index st.bytesFlashed st.flash).1
        flash := (flashPayload inp.Data (inp.dataLen - index) index st.bytesFlashed st.flash).2
        sent := st.sent ++ [sprintfOK tmp]
        acked := st.acked ++ [payloadOf inp.Data inp.dataLen index] } := by
  obtain ⟨hb, hf⟩ := h
  have hlt : st.bytesFlashed < 65536 := by rw [hb]; exact Nat.mod_lt _ (by norm_num)
  rw [flashPayload_eq _ _ _ _ _ hlt]
  constructor
  · simp only [List.flatten_append, List.flatten_cons, List.flatten_nil, List.append_nil,
      List.length_append, payloadOf_length]
    rw [hb]
    omega
  · simp only [List.flatten_append, List.flatten_cons, List.flatten_nil, List.append_nil]
    rw [payloadOps_append 10 _ _ (by norm_num), hf, hb, List.append_assoc]
    rfl

theorem rxData_good (flash0 : List FlashOp) (st : RxState) (inp : RxInput)
    (h : RxInv flash0 st) : RxGood flash0 (rxData st inp) := by
  unfold rxData
  split
  · split
    · exact h
    · split
      · exact rxData_accept_inv flash0 st inp _ _ h
      · exact h
  · exact h

theorem rxQuery_good (flash0 : List FlashOp) (st : RxState) (inp : RxInput)
    (h : RxInv flash0 st) : RxGood flash0 (rxQuery st inp) := by
  have h1 : RxInv flash0
      (if inp.dataLen = 4 then { st with sent := st.sent ++ [FLX_OK] } else st) := by
    by_cases h4 : inp.dataLen = 4
    · rw [if_pos h4]; exact h
    · rw [if_neg h4]; exact h
  have hacc : (if inp.dataLen = 4 then { st with sent := st.sent ++ [FLX_OK] } else st).acked
      = st.acked := by
    by_cases h4 : inp.dataLen = 4
    · rw [if_pos h4]
    · rw [if_neg h4]
  have hbf : (65536 + (if inp.dataLen = 4 then { st with sent := st.sent ++ [FLX_OK] }
      else st).bytesFlashed - 10) % 65536 = st.acked.flatten.length % 65536 := by
    rw [h1.1, hacc]
    omega
  unfold rxQuery
  by_cases h3 : inp.Data.getD 3 0 = 63
  · rw [if_pos h3]
    dsimp only
    by_cases h7 : inp.dataLen = 7 ∧ inp.Data.getD 4 0 = 69 ∧ inp.Data.getD 5 0 = 79 ∧
        inp.Data.getD 6 0 = 70
    · rw [if_pos h7]
      by_cases hov : (65536 + (if inp.dataLen = 4 then { st with sent := st.sent ++ [FLX_OK] }
          else st).bytesFlashed - 10) % 65536 > 31744
      · rw [if_pos hov]
        exact h1
      · rw [if_neg hov]
        rw [hbf] at hov
        show RxFinal flash0 true _
        unfold RxFinal
        rw [if_pos rfl]
        dsimp only
        rw [hacc, hbf, h1.2, hacc]
        refine ⟨by omega, ?_⟩
        have e1 : st.acked.flatten.length % 65536 / 256 % 256
            = st.acked.flatten.length % 65536 / 256 := by omega
        simp only [SPIFlash.writeByte, commitOps, List.append_assoc, e1]
        rfl
    · rw [if_neg h7]
      exact h1
  · rw [if_neg h3]
    exact h

theorem rxPacket_good (flash0 : List FlashOp) (st : RxState) (inp : RxInput)
    (h : RxInv flash0 st) : RxGood flash0 (rxPacket st inp) := by
  unfold rxPacket
  split
  · have hd := rxData_good flash0 st inp h
    cases hr : rxData st inp with
    | running s =>
      rw [hr] at hd
      exact rxQuery_good flash0 s inp hd
    | returned b s =>
      rw [hr] at hd
      exact hd
  · exact h

theorem rxLoopBody_good (flash0 : List FlashOp) (remoteID : Nat) (st : RxState)
    (inp : RxInput) (h : RxInv flash0 st) : RxGood flash0 (rxLoopBody remoteID st inp) := by
  have hp : RxGood flash0
      (if inp.receiveComplete = true ∧ inp.crcPass = true ∧ inp.sender = remoteID then
        rxPacket st inp else Outcome.running st) := by
    split
    · exact rxPacket_good flash0 st inp h
    · exact h
  unfold rxLoopBody
  cases hr : (if inp.receiveComplete = true ∧ inp.crcPass = true ∧ inp.sender = remoteID then
        rxPacket st inp else Outcome.running st) with
  | running s =>
    rw [hr] at hp
    simp only []
    split
    · exact hp
    · exact hp
  | returned b s =>
    rw [hr] at hp
    exact hp

theorem runLoop_good (flash0 : List FlashOp) (remoteID : Nat) (st : RxState)
    (ins : List RxInput) (h : RxInv flash0 st) :
    RxGood flash0 (runLoop (rxLoopBody remoteID) st ins) := by
  induction ins generalizing st with
  | nil => exact h
  | cons inp rest ih =>
    rw [runLoop]
    have hb := rxLoopBody_good flash0 remoteID st inp h
    cases hr : rxLoopBody remoteID st inp with
    | running s =>
      rw [hr] at hb
      exact ih s hb
    | returned b s =>
      rw [hr] at hb
      exact hb

theorem HandleWirelessHEXData_good (flash0 : List FlashOp) (remoteID ms : Nat)
    (ins : List RxInput) : RxGood flash0 (HandleWirelessHEXData remoteID flash0 ms ins) :=
  runLoop_good flash0 remoteID _ ins (rxStart_inv flash0 ms)


/-! ## Facts about the content of the chip -/

theorem storage_append (mem : Nat → Nat) (xs ys : List FlashOp) :
    storage mem (xs ++ ys) = storage (storage mem xs) ys := by
  unfold storage
  rw [List.foldl_append]

theorem storage_cons (mem : Nat → Nat) (op : FlashOp) (ops : List FlashOp) :
    storage mem (op :: ops) = storage (chipStep mem op) ops := rfl

theorem and_255 (b : Nat) (h : b < 256) : 255 &&& b = b := by
  rw [Nat.and_comm]
  have := Nat.and_pow_two_sub_one_eq_mod b 8
  norm_num at this
  rw [this]
  exact Nat.mod_eq_of_lt h

theorem chipStep_program_one (mem : Nat → Nat) (addr b x : Nat) :
    chipStep mem (FlashOp.program addr [b]) x = if x = addr then mem x &&& b else mem x := by
  have e : pageAddr addr 0 = addr := by unfold pageAddr; omega
  simp only [chipStep, programFrom, e]

theorem storage_payloadOps (bytes : List Nat) (bf : Nat) (mem : Nat → Nat)
    (hlen : bf + bytes.length ≤ 65536) (hb : ∀ b ∈ bytes, b < 256)
    (hmem : ∀ a, bf ≤ a → a < bf + bytes.length → mem a = 255) (x : Nat) :
    storage mem (payloadOps bf bytes) x =
      if bf ≤ x ∧ x < bf + bytes.length then bytes.getD (x - bf) 0 else mem x := by
  induction bytes generalizing bf mem with
  | nil =>
    rw [if_neg (by simp)]
    rfl
  | cons b bs ih =>
    have hb0 : b < 256 := hb b (List.mem_cons_self _ _)
    have hbs : ∀ c ∈ bs, c < 256 := fun c hc => hb c (List.mem_cons_of_mem _ hc)
    rw [List.length_cons] at hlen
    have e1 : bf % 16777216 = bf := by omega
    have e2 : b % 256 = b := Nat.mod_eq_of_lt hb0
    rw [payloadOps, storage_cons, e1, e2]
    cases bs with
    | nil =>
      rw [payloadOps]
      show chipStep mem (FlashOp.program bf [b]) x = _
      rw [chipStep_program_one]
      by_cases hx : x = bf
      · rw [if_pos hx, if_pos (by simp; omega), hx, hmem bf (by omega) (by simp), and_255 b hb0]
        simp
      · rw [if_neg hx, if_neg (by simp; omega)]
    | cons c cs =>
      rw [List.length_cons] at hlen
      have e3 : (bf + 1) % 65536 = bf + 1 := by omega
      rw [e3, ih (bf + 1) _ (by rw [List.length_cons]; omega) hbs]
      · rw [chipStep_program_one]
        simp only [List.length_cons]
        by_cases hx : x = bf
        · rw [if_neg (by omega), if_pos hx, if_pos (by omega), hx,
            hmem bf (by omega) (by simp), and_255 b hb0]
          simp
        · by_cases hin : bf + 1 ≤ x ∧ x < bf + 1 + (cs.length + 1)
          · rw [if_pos hin, if_pos (by omega)]
            have e4 : x - bf = (x - (bf + 1)) + 1 := by omega
            rw [e4, List.getD_cons_succ]
          · rw [if_neg hin, if_neg hx, if_neg (by omega)]
      · intro a ha1 ha2
        rw [List.length_cons] at ha2
        rw [chipStep_program_one, if_neg (by omega)]
        exact hmem a (by omega) (by simp only [List.length_cons]; omega)

theorem programFrom_eq (addr : Nat) (data : List Nat) (i : Nat) (mem : Nat → Nat)
    (hpage : addr % 256 + i + data.length ≤ 256) (hb : ∀ b ∈ data, b < 256)
    (hmem : ∀ a, addr + i ≤ a → a < addr + i + data.length → mem a = 255) (x : Nat) :
    programFrom addr data i mem x =
      if addr + i ≤ x ∧ x < addr + i + data.length then data.getD (x - (addr + i)) 0
      else mem x := by
  induction data generalizing i mem with
  | nil =>
    rw [if_neg (by simp)]
    rfl
  | cons b bs ih =>
    have hb0 : b < 256 := hb b (List.mem_cons_self _ _)
    have hbs : ∀ c ∈ bs, c < 256 := fun c hc => hb c (List.mem_cons_of_mem _ hc)
    rw [List.length_cons] at hpage
    have e : pageAddr addr i = addr + i := by unfold pageAddr; omega
    rw [programFrom, e, ih (i + 1) _ (by omega) hbs]
    · simp only [List.length_cons]
      by_cases hx : x = addr + i
      · rw [if_neg (by omega), if_pos hx, if_pos (by omega), hx,
          hmem (addr + i) (by omega) (by simp), and_255 b hb0]
        simp
      · by_cases hin : addr + (i + 1) ≤ x ∧ x < addr + (i + 1) + bs.length
        · rw [if_pos hin, if_pos (by omega)]
          have e4 : x - (addr + i) = (x - (addr + (i + 1))) + 1 := by omega
          rw [e4, List.getD_cons_succ]
        · rw [if_neg hin, if_neg hx, if_neg (by omega)]
    · intro a ha1 ha2
      rw [if_neg (by omega)]
      exact hmem a (by omega) (by simp only [List.length_cons]; omega)

theorem storage_sessionStart (mem : Nat → Nat) (a : Nat) (h : a < 32768) :
    storage mem sessionStartOps a =
      if a < 7 then FLXIMG.getD a 0 else if a = 9 then 58 else 255 := by
  have hb : ∀ b ∈ FLXIMG, b < 256 := by decide
  have herase : ∀ x, x < 32768 → chipStep mem (FlashOp.erase32K 0) x = 255 := by
    intro x hx
    have e0 : x / 32768 = 0 / 32768 := by omega
    simp only [chipStep, e0, if_true]
  have hprog := programFrom_eq 0 FLXIMG 0 (chipStep mem (FlashOp.erase32K 0))
    (by decide) hb (fun x _ hx => herase x (by simp [FLXIMG] at hx; omega))
  have hlen : FLXIMG.length = 7 := rfl
  show chipStep (chipStep (chipStep mem (FlashOp.erase32K 0)) (FlashOp.program 0 FLXIMG))
    (FlashOp.program 9 [58]) a = _
  rw [chipStep_program_one]
  show (if a = 9 then programFrom 0 FLXIMG 0 (chipStep mem (FlashOp.erase32K 0)) a &&& 58
    else programFrom 0 FLXIMG 0 (chipStep mem (FlashOp.erase32K 0)) a) = _
  rw [hprog a, hlen]
  by_cases h9 : a = 9
  · rw [if_pos h9, if_neg (by omega), if_neg (by omega), if_pos h9, herase a h]
    exact and_255 58 (by norm_num)
  · rw [if_neg h9]
    by_cases h7 : a < 7
    · rw [if_pos (by omega), if_pos h7]
      simp
    · rw [if_neg (by omega), if_neg h7, if_neg h9, herase a h]

theorem storage_commitOps (mem : Nat → Nat) (n x : Nat) :
    storage mem (commitOps n) x =
      if x = 9 then mem 9 &&& 58
      else if x = 8 then mem 8 &&& (n % 65536 % 256)
      else if x = 7 then mem 7 &&& (n % 65536 / 256)
      else mem x := by
  simp only [storage, commitOps, List.foldl_cons, List.foldl_nil, chipStep_program_one]
  by_cases h9 : x = 9
  · simp [h9]
  · by_cases h8 : x = 8
    · simp [h8]
    · by_cases h7 : x = 7
      · simp [h7]
      · simp [h9, h8, h7]


theorem storage_session (mem0 : Nat → Nat) (flash0 : List FlashOp) (bytes : List Nat)
    (hN : bytes.length ≤ 32758) (hb : ∀ b ∈ bytes, b < 256) (x : Nat) (hx : x < 32768) :
    storage mem0 (flash0 ++ sessionStartOps ++ payloadOps 10 bytes) x =
      if x < 7 then FLXIMG.getD x 0
      else if x = 9 then 58
      else if 10 ≤ x ∧ x < 10 + bytes.length then bytes.getD (x - 10) 0
      else 255 := by
  rw [storage_append, storage_append,
    storage_payloadOps bytes 10 _ (by omega) hb
      (fun a h1 h2 => by
        rw [storage_sessionStart _ a (by omega), if_neg (by omega), if_neg (by omega)])]
  by_cases hin : 10 ≤ x ∧ x < 10 + bytes.length
  · rw [if_pos hin, if_neg (by omega), if_neg (by omega), if_pos hin]
  · rw [if_neg hin, storage_sessionStart _ x hx]
    by_cases h7 : x < 7
    · rw [if_pos h7, if_pos h7]
    · rw [if_neg h7, if_neg h7]
      by_cases h9 : x = 9
      · rw [if_pos h9, if_pos h9]
      · rw [if_neg h9, if_neg h9, if_neg hin]

theorem storage_committed (mem0 : Nat → Nat) (flash0 : List FlashOp) (bytes : List Nat)
    (hN : bytes.length ≤ 31744) (hb : ∀ b ∈ bytes, b < 256) :
    (∀ i < 7, storage mem0 (flash0 ++ sessionStartOps ++ payloadOps 10 bytes ++
        commitOps bytes.length) i = FLXIMG.getD i 0) ∧
    storage mem0 (flash0 ++ sessionStartOps ++ payloadOps 10 bytes ++
        commitOps bytes.length) 7 = bytes.length / 256 ∧
    storage mem0 (flash0 ++ sessionStartOps ++ payloadOps 10 bytes ++
        commitOps bytes.length) 8 = bytes.length % 256 ∧
    storage mem0 (flash0 ++ sessionStartOps ++ payloadOps 10 bytes ++
        commitOps bytes.length) 9 = 58 ∧
    ∀ i < bytes.length, storage mem0 (flash0 ++ sessionStartOps ++ payloadOps 10 bytes ++
        commitOps bytes.length) (10 + i) = bytes.getD i 0 := by
  have hs := storage_session mem0 flash0 bytes (by omega) hb
  have e : bytes.length % 65536 = bytes.length := by omega
  refine ⟨?_, ?_, ?_, ?_, ?_⟩
  · intro i hi
    rw [storage_append _ _ (commitOps _), storage_commitOps, if_neg (by omega),
      if_neg (by omega), if_neg (by omega), hs i (by omega), if_pos hi]
  · rw [storage_append _ _ (commitOps _), storage_commitOps, if_neg (by omega),
      if_neg (by omega), if_pos rfl, hs 7 (by omega), if_neg (by omega), if_neg (by omega),
      if_neg (by omega), e]
    exact and_255 _ (by omega)
  · rw [storage_append _ _ (commitOps _), storage_commitOps, if_neg (by omega),
      if_pos rfl, hs 8 (by omega), if_neg (by omega), if_neg (by omega),
      if_neg (by omega), e]
    exact and_255 _ (by omega)
  · rw [storage_append _ _ (commitOps _), storage_commitOps, if_pos rfl, hs 9 (by omega),
      if_neg (by omega), if_pos rfl]
    rfl
  · intro i hi
    rw [storage_append _ _ (commitOps _), storage_commitOps, if_neg (by omega),
      if_neg (by omega), if_neg (by omega), hs (10 + i) (by omega), if_neg (by omega),
      if_neg (by omega), if_pos (by omega)]
    congr 1
    omega

theorem mem_flatten_lt (acked : List (List Nat)) (h : ∀ p ∈ acked, ∀ b ∈ p, b < 256) :
    ∀ b ∈ acked.flatten, b < 256 := by
  intro b hb
  rw [List.mem_flatten] at hb
  obtain ⟨p, hp, hbp⟩ := hb
  exact h p hp b hbp

theorem rxLoopBody_eof (remoteID : Nat) (st : RxState) (eof : RxInput) (tail : List Nat)
    (h1 : eof.receiveComplete = true) (h2 : eof.crcPass = true) (h3 : eof.sender = remoteID)
    (h4 : eof.dataLen = 7) (h5 : eof.Data = FLX_EOF ++ tail) :
    rxLoopBody remoteID st eof =
      if (65536 + st.bytesFlashed - 10) % 65536 > 31744 then Outcome.returned false st
      else
        Outcome.returned true
          { st with
            sent := st.sent ++ [FLX_OK]
            flash :=
              SPIFlash.writeByte
                (SPIFlash.writeByte
                  (SPIFlash.writeByte st.flash 7 ((65536 + st.bytesFlashed - 10) % 65536 / 256))
                  8 ((65536 + st.bytesFlashed - 10) % 65536))
                9 58 } := by
  have d0 : eof.Data.getD 0 0 = 70 := by rw [h5]; rfl
  have d1 : eof.Data.getD 1 0 = 76 := by rw [h5]; rfl
  have d2 : eof.Data.getD 2 0 = 88 := by rw [h5]; rfl
  have d3 : eof.Data.getD 3 0 = 63 := by rw [h5]; rfl
  have d4 : eof.Data.getD 4 0 = 69 := by rw [h5]; rfl
  have d5 : eof.Data.getD 5 0 = 79 := by rw [h5]; rfl
  have d6 : eof.Data.getD 6 0 = 70 := by rw [h5]; rfl
  have hd : rxData st eof = Outcome.running st := by
    unfold rxData
    rw [if_neg (by rw [d3]; omega)]
  unfold rxLoopBody
  rw [if_pos ⟨h1, h2, h3⟩]
  unfold rxPacket
  rw [if_pos ⟨by omega, d0, d1, d2⟩, hd]
  dsimp only
  unfold rxQuery
  rw [if_pos d3]
  dsimp only
  rw [if_neg (show ¬ eof.dataLen = 4 by omega), if_pos (show eof.dataLen = 7 ∧ _ from ⟨h4, d4, d5, d6⟩)]
  by_cases hov : (65536 + st.bytesFlashed - 10) % 65536 > 31744
  · simp only [if_pos hov]
  · simp only [if_neg hov]

/-! ## Facts about the frame header -/

theorem utoa_one (n : Nat) (h : n < 10) : utoa n = [48 + n] := by
  simp [utoa, utoaAux, h]

theorem utoa_two (n : Nat) (h1 : 10 ≤ n) (h2 : n < 100) :
    utoa n = [48 + n / 10, 48 + n % 10] := by
  have a1 : ¬ n < 10 := by omega
  have a2 : n / 10 < 10 := by omega
  simp [utoa, utoaAux, a1, a2]

theorem utoa_three (n : Nat) (h1 : 100 ≤ n) (h2 : n < 1000) :
    utoa n = [48 + n / 10 / 10, 48 + n / 10 % 10, 48 + n % 10] := by
  have a1 : ¬ n < 10 := by omega
  have a2 : ¬ n / 10 < 10 := by omega
  have a3 : n / 10 / 10 < 10 := by omega
  simp [utoa, utoaAux, a1, a2, a3]

theorem utoa_four (n : Nat) (h1 : 1000 ≤ n) (h2 : n < 10000) :
    utoa n = [48 + n / 10 / 10 / 10, 48 + n / 10 / 10 % 10, 48 + n / 10 % 10, 48 + n % 10] := by
  have a1 : ¬ n < 10 := by omega
  have a2 : ¬ n / 10 < 10 := by omega
  have a3 : ¬ n / 10 / 10 < 10 := by omega
  have a4 : n / 10 / 10 / 10 < 10 := by omega
  simp [utoa, utoaAux, a1, a2, a3, a4]

theorem utoa_five (n : Nat) (h1 : 10000 ≤ n) (h2 : n < 100000) :
    utoa n = [48 + n / 10 / 10 / 10 / 10, 48 + n / 10 / 10 / 10 % 10, 48 + n / 10 / 10 % 10,
      48 + n / 10 % 10, 48 + n % 10] := by
  have a1 : ¬ n < 10 := by omega
  have a2 : ¬ n / 10 < 10 := by omega
  have a3 : ¬ n / 10 / 10 < 10 := by omega
  have a4 : ¬ n / 10 / 10 / 10 < 10 := by omega
  have a5 : n / 10 / 10 / 10 / 10 < 10 := by omega
  simp [utoa, utoaAux, a1, a2, a3, a4, a5]

theorem readSEQ_colon (Data : List Nat) (n i index tmp : Nat) (h : Data.getD i 0 = 58) :
    readSEQ Data (n + 1) i index tmp =
      if i = 4 then none else some (tmp, (index + 1) % 256) := by
  rw [readSEQ, if_neg (by omega), if_pos h]

theorem readSEQ_digit (Data : List Nat) (n i index tmp : Nat)
    (h : 48 ≤ Data.getD i 0 ∧ Data.getD i 0 ≤ 57) :
    readSEQ Data (n + 1) i index tmp =
      readSEQ Data n (i + 1) ((index + 1) % 256) ((tmp * 10 + Data.getD i 0 - 48) % 65536) := by
  rw [readSEQ, if_pos h]

theorem readSEQ_other (Data : List Nat) (n i index tmp : Nat) (h : Data.getD i 0 ≠ 58) :
    ∃ tmp1, readSEQ Data (n + 1) i index tmp =
      readSEQ Data n (i + 1) ((index + 1) % 256) tmp1 := by
  by_cases hd : 48 ≤ Data.getD i 0 ∧ Data.getD i 0 ≤ 57
  · exact ⟨_, readSEQ_digit Data n i index tmp hd⟩
  · exact ⟨tmp, by rw [readSEQ, if_neg hd, if_neg h]⟩

/-- The header parser fails exactly when the sequence field is empty or no colon
stands at offsets 5, 6 or 7. -/
theorem parseHeader_eq_none_iff (Data : List Nat) :
    parseHeader Data = none ↔
      (Data.getD 4 0 = 58 ∨
        (Data.getD 5 0 ≠ 58 ∧ Data.getD 6 0 ≠ 58 ∧ Data.getD 7 0 ≠ 58)) := by
  unfold parseHeader
  by_cases h4 : Data.getD 4 0 = 58
  · rw [readSEQ_colon Data 3 4 3 0 h4]
    simp [-List.getD_eq_getElem?_getD, h4]
  · obtain ⟨t1, e1⟩ := readSEQ_other Data 3 4 3 0 h4
    rw [e1]
    by_cases h5 : Data.getD 5 0 = 58
    · rw [readSEQ_colon Data 2 5 _ t1 h5]
      simp [-List.getD_eq_getElem?_getD, h4, h5]
    · obtain ⟨t2, e2⟩ := readSEQ_other Data 2 5 _ t1 h5
      rw [e2]
      by_cases h6 : Data.getD 6 0 = 58
      · rw [readSEQ_colon Data 1 6 _ t2 h6]
        simp [-List.getD_eq_getElem?_getD, h4, h5, h6]
      · obtain ⟨t3, e3⟩ := readSEQ_other Data 1 6 _ t2 h6
        rw [e3]
        by_cases h7 : Data.getD 7 0 = 58
        · rw [readSEQ_colon Data 0 7 _ t3 h7]
          simp [-List.getD_eq_getElem?_getD, h4, h5, h6, h7]
        · obtain ⟨t4, e4⟩ := readSEQ_other Data 0 7 _ t3 h7
          rw [e4]
          simp [-List.getD_eq_getElem?_getD, readSEQ, h4, h5, h6, h7]

/-- A header with one to three sequence digits is parsed as its number, the
payload starting right after the second colon. -/
theorem parseHeader_sprintfHeader (seq : Nat) (rest : List Nat) (h : seq < 1000) :
    parseHeader (sprintfHeader seq ++ rest) = some (seq, (sprintfHeader seq).length) := by
  unfold sprintfHeader parseHeader
  by_cases h1 : seq < 10
  · rw [utoa_one seq h1]
    have d4 : ([70, 76, 88, 58] ++ [48 + seq] ++ [58] ++ rest).getD 4 0 = 48 + seq := rfl
    have d5 : ([70, 76, 88, 58] ++ [48 + seq] ++ [58] ++ rest).getD 5 0 = 58 := rfl
    rw [readSEQ_digit _ 3 4 3 0 (by rw [d4]; omega), readSEQ_colon _ 2 5 _ _ d5, d4]
    simp
    omega
  · by_cases h2 : seq < 100
    · rw [utoa_two seq (by omega) h2]
      have d4 : ([70, 76, 88, 58] ++ [48 + seq / 10, 48 + seq % 10] ++ [58] ++ rest).getD 4 0
          = 48 + seq / 10 := rfl
      have d5 : ([70, 76, 88, 58] ++ [48 + seq / 10, 48 + seq % 10] ++ [58] ++ rest).getD 5 0
          = 48 + seq % 10 := rfl
      have d6 : ([70, 76, 88, 58] ++ [48 + seq / 10, 48 + seq % 10] ++ [58] ++ rest).getD 6 0
          = 58 := rfl
      rw [readSEQ_digit _ 3 4 3 0 (by rw [d4]; omega),
        readSEQ_digit _ 2 5 _ _ (by rw [d5]; omega), readSEQ_colon _ 1 6 _ _ d6, d4, d5]
      simp
      omega
    · rw [utoa_three seq (by omega) h]
      have d4 : ([70, 76, 88, 58] ++ [48 + seq / 10 / 10, 48 + seq / 10 % 10, 48 + seq % 10]
          ++ [58] ++ rest).getD 4 0 = 48 + seq / 10 / 10 := rfl
      have d5 : ([70, 76, 88, 58] ++ [48 + seq / 10 / 10, 48 + seq / 10 % 10, 48 + seq % 10]
          ++ [58] ++ rest).getD 5 0 = 48 + seq / 10 % 10 := rfl
      have d6 : ([70, 76, 88, 58] ++ [48 + seq / 10 / 10, 48 + seq / 10 % 10, 48 + seq % 10]
          ++ [58] ++ rest).getD 6 0 = 48 + seq % 10 := rfl
      have d7 : ([70, 76, 88, 58] ++ [48 + seq / 10 / 10, 48 + seq / 10 % 10, 48 + seq % 10]
          ++ [58] ++ rest).getD 7 0 = 58 := rfl
      rw [readSEQ_digit _ 3 4 3 0 (by rw [d4]; omega),
        readSEQ_digit _ 2 5 _ _ (by rw [d5]; omega),
        readSEQ_digit _ 1 6 _ _ (by rw [d6]; omega), readSEQ_colon _ 0 7 _ _ d7, d4, d5, d6]
      simp
      omega

/-- A header with four or five sequence digits makes the parser fail: after four
digits it tests, at offset 7, the fourth digit for the colon. -/
theorem parseHeader_four_digits (seq : Nat) (rest : List Nat) (h1 : 1000 ≤ seq)
    (h2 : seq < 65536) : parseHeader (sprintfHeader seq ++ rest) = none := by
  rw [parseHeader_eq_none_iff]
  right
  unfold sprintfHeader
  by_cases h4 : seq < 10000
  · rw [utoa_four seq h1 h4]
    refine ⟨?_, ?_, ?_⟩
    · show 48 + seq / 10 / 10 % 10 ≠ 58
      omega
    · show 48 + seq / 10 % 10 ≠ 58
      omega
    · show 48 + seq % 10 ≠ 58
      omega
  · rw [utoa_five seq (by omega) (by omega)]
    refine ⟨?_, ?_, ?_⟩
    · show 48 + seq / 10 / 10 / 10 % 10 ≠ 58
      omega
    · show 48 + seq / 10 / 10 % 10 ≠ 58
      omega
    · show 48 + seq / 10 % 10 ≠ 58
      omega


/-! ## One pass of the receiver on a data frame -/

theorem elapsed_self (ms : Nat) : elapsed ms ms = 0 ∨ 4294967296 ≤ ms := by
  unfold elapsed
  omega

theorem rxLoopBody_data (remoteID : Nat) (st : RxState) (inp : RxInput)
    (h1 : inp.receiveComplete = true) (h2 : inp.crcPass = true) (h3 : inp.sender = remoteID)
    (h7 : 7 ≤ inp.dataLen) (d0 : inp.Data.getD 0 0 = 70) (d1 : inp.Data.getD 1 0 = 76)
    (d2 : inp.Data.getD 2 0 = 88) (d3 : inp.Data.getD 3 0 = 58) :
    rxLoopBody remoteID st inp =
      match rxData st inp with
      | Outcome.returned b s => Outcome.returned b s
      | Outcome.running s =>
        if elapsed inp.msCheck s.now > 3000 then Outcome.returned false s
        else Outcome.running s := by
  unfold rxLoopBody
  rw [if_pos ⟨h1, h2, h3⟩]
  unfold rxPacket
  rw [if_pos ⟨by omega, d0, d1, d2⟩]
  cases hd : rxData st inp with
  | returned b s => rfl
  | running s =>
    dsimp only
    unfold rxQuery
    rw [if_neg (by rw [d3]; omega)]

/-- A frame `FLX:...` of at least 7 bytes whose header does not parse ends the
session: the routine returns failure, having done nothing. -/
theorem rxLoopBody_malformed (remoteID : Nat) (st : RxState) (inp : RxInput)
    (h1 : inp.receiveComplete = true) (h2 : inp.crcPass = true) (h3 : inp.sender = remoteID)
    (h7 : 7 ≤ inp.dataLen) (d0 : inp.Data.getD 0 0 = 70) (d1 : inp.Data.getD 1 0 = 76)
    (d2 : inp.Data.getD 2 0 = 88) (d3 : inp.Data.getD 3 0 = 58)
    (hp : parseHeader inp.Data = none) :
    rxLoopBody remoteID st inp = Outcome.returned false st := by
  rw [rxLoopBody_data remoteID st inp h1 h2 h3 h7 d0 d1 d2 d3]
  unfold rxData
  rw [if_pos ⟨d3, h7⟩, hp]

/-- A data frame with another sequence number than the expected one is ignored:
only the silence timer is reset. -/
theorem rxLoopBody_ignore (remoteID : Nat) (st : RxState) (inp : RxInput) (tmp index : Nat)
    (h1 : inp.receiveComplete = true) (h2 : inp.crcPass = true) (h3 : inp.sender = remoteID)
    (h7 : 7 ≤ inp.dataLen) (d0 : inp.Data.getD 0 0 = 70) (d1 : inp.Data.getD 1 0 = 76)
    (d2 : inp.Data.getD 2 0 = 88) (d3 : inp.Data.getD 3 0 = 58)
    (hp : parseHeader inp.Data = some (tmp, index)) (hne : tmp ≠ st.seq)
    (ht : elapsed inp.msCheck inp.msGood ≤ 3000) :
    rxLoopBody remoteID st inp = Outcome.running { st with now := inp.msGood } := by
  rw [rxLoopBody_data remoteID st inp h1 h2 h3 h7 d0 d1 d2 d3]
  unfold rxData
  rw [if_pos ⟨d3, h7⟩, hp]
  dsimp only
  rw [if_neg hne]
  dsimp only
  rw [if_neg (by omega)]

/-- A data frame with the expected sequence number is written and acknowledged. -/
theorem rxLoopBody_accept (remoteID : Nat) (st : RxState) (inp : RxInput) (index : Nat)
    (h1 : inp.receiveComplete = true) (h2 : inp.crcPass = true) (h3 : inp.sender = remoteID)
    (h7 : 7 ≤ inp.dataLen) (d0 : inp.Data.getD 0 0 = 70) (d1 : inp.Data.getD 1 0 = 76)
    (d2 : inp.Data.getD 2 0 = 88) (d3 : inp.Data.getD 3 0 = 58)
    (hp : parseHeader inp.Data = some (st.seq, index))
    (ht : elapsed inp.msCheck inp.msGood ≤ 3000) :
    rxLoopBody remoteID st inp =
      Outcome.running
        { now := inp.msGood
          seq := (st.seq + 1) % 65536
          bytesFlashed :=
            (flashPayload inp.Data (inp.dataLen - index) index st.bytesFlashed st.flash).1
          flash := (flashPayload inp.Data (inp.dataLen - index) index st.bytesFlashed st.flash).2
          sent := st.sent ++ [sprintfOK st.seq]
          acked := st.acked ++ [payloadOf inp.Data inp.dataLen index] } := by
  rw [rxLoopBody_data remoteID st inp h1 h2 h3 h7 d0 d1 d2 d3]
  unfold rxData
  rw [if_pos ⟨d3, h7⟩, hp]
  dsimp only
  rw [if_pos rfl]
  dsimp only
  rw [if_neg (by omega)]

theorem dataFrame_eq (seq : Nat) (payload : List Nat) (hb : ∀ b ∈ payload, b < 256) :
    dataFrame seq payload = sprintfHeader seq ++ payload := by
  unfold dataFrame prepareSendBuffer
  have := decodeHEX_hexString payload [] hb
  rw [List.append_nil] at this
  rw [this]

theorem sprintfHeader_getD (seq : Nat) (rest : List Nat) :
    (sprintfHeader seq ++ rest).getD 0 0 = 70 ∧ (sprintfHeader seq ++ rest).getD 1 0 = 76 ∧
    (sprintfHeader seq ++ rest).getD 2 0 = 88 ∧ (sprintfHeader seq ++ rest).getD 3 0 = 58 :=
  ⟨rfl, rfl, rfl, rfl⟩

theorem utoa_length_pos (seq : Nat) : 1 ≤ (utoa seq).length := by
  have h : ∀ fuel n acc, 1 ≤ acc.length → 1 ≤ (utoaAux fuel n acc).length := by
    intro fuel
    induction fuel with
    | zero => intro n acc h; exact h
    | succ f ih =>
      intro n acc h
      rw [utoaAux]
      split
      · simp
      · exact ih _ _ (by simp)
  unfold utoa
  rw [utoaAux]
  split
  · simp
  · exact h _ _ _ (by simp)

theorem sprintfHeader_length (seq : Nat) : 6 ≤ (sprintfHeader seq).length := by
  have := utoa_length_pos seq
  simp only [sprintfHeader, List.length_append, List.length_cons, List.length_nil]
  omega

theorem payloadOf_append (hdr payload : List Nat) :
    payloadOf (hdr ++ payload) (hdr ++ payload).length hdr.length = payload := by
  unfold payloadOf
  apply List.ext_getElem
  · simp
  · intro i h1 h2
    simp only [List.getElem_map, List.getElem_range]
    rw [List.getD_eq_getElem?_getD, List.getElem?_append_right (by omega)]
    simp only [Nat.add_sub_cancel_left]
    rw [List.getElem?_eq_getElem h2]
    rfl

/-- The frame `FLX:<seq>:<payload>` with the expected sequence number, of one to
three digits, and a non-empty payload of bytes is parsed as such: exactly the
payload is appended to storage, and the frame is acknowledged. -/
theorem rxLoopBody_dataFrame (remoteID ms : Nat) (st : RxState) (payload : List Nat)
    (hseq : st.seq < 1000) (hne : payload ≠ []) (hb : ∀ b ∈ payload, b < 256)
    (hbf : st.bytesFlashed < 65536) (hms : ms < 4294967296) :
    rxLoopBody remoteID st (received remoteID (dataFrame st.seq payload) ms) =
      Outcome.running
        { now := ms
          seq := st.seq + 1
          bytesFlashed := (st.bytesFlashed + payload.length) % 65536
          flash := st.flash ++ payloadOps st.bytesFlashed payload
          sent := st.sent ++ [sprintfOK st.seq]
          acked := st.acked ++ [payload] } := by
  have hlen := sprintfHeader_length st.seq
  have hpl : 1 ≤ payload.length := by
    cases payload with
    | nil => exact absurd rfl hne
    | cons b bs => simp
  obtain ⟨d0, d1, d2, d3⟩ := sprintfHeader_getD st.seq payload
  have hacc := rxLoopBody_accept remoteID st
    (received remoteID (dataFrame st.seq payload) ms) (sprintfHeader st.seq).length rfl rfl rfl
    (by simp only [received, dataFrame_eq _ _ hb, List.length_append]; omega)
    (by simp only [received, dataFrame_eq _ _ hb]; exact d0)
    (by simp only [received, dataFrame_eq _ _ hb]; exact d1)
    (by simp only [received, dataFrame_eq _ _ hb]; exact d2)
    (by simp only [received, dataFrame_eq _ _ hb]; exact d3)
    (by simp only [received, dataFrame_eq _ _ hb]
        exact parseHeader_sprintfHeader st.seq payload hseq)
    (by simp only [received]; rcases elapsed_self ms with h | h <;> omega)
  rw [hacc]
  simp only [received, dataFrame_eq _ _ hb, flashPayload_eq _ _ _ _ _ hbf]
  have e1 : (sprintfHeader st.seq ++ payload).length - (sprintfHeader st.seq).length
      = payload.length := by
    rw [List.length_append]; omega
  have e2 := payloadOf_append (sprintfHeader st.seq) payload
  have e3 : List.map (fun k => (sprintfHeader st.seq ++ payload).getD
      ((sprintfHeader st.seq).length + k) 0) (List.range payload.length) = payload := by
    have := e2
    unfold payloadOf at this
    rw [e1] at this
    exact this
  rw [e2, e1, e3]
  have e4 : (st.seq + 1) % 65536 = st.seq + 1 := by omega
  rw [e4]

/-! ## Sessions of consecutive data frames -/

theorem runLoop_chunks (remoteID ms : Nat) (payloads : List (List Nat)) (st : RxState)
    (seq : Nat) (hs : st.seq = seq)
    (hseq : seq + payloads.length ≤ 1000) (hne : ∀ p ∈ payloads, p ≠ [])
    (hb : ∀ p ∈ payloads, ∀ b ∈ p, b < 256) (hbf : st.bytesFlashed < 65536)
    (hms : ms < 4294967296) :
    ∃ st1, runLoop (rxLoopBody remoteID) st (chunkInputs remoteID ms seq payloads)
        = Outcome.running st1 ∧
      st1.seq = seq + payloads.length ∧ st1.acked = st.acked ++ payloads := by
  induction payloads generalizing st seq with
  | nil => exact ⟨st, rfl, hs, by simp⟩
  | cons p ps ih =>
    subst hs
    rw [List.length_cons] at hseq
    have hstep := rxLoopBody_dataFrame remoteID ms st p (by omega)
      (hne p (List.mem_cons_self _ _)) (hb p (List.mem_cons_self _ _)) hbf hms
    obtain ⟨st1, h1, h2, h3⟩ := ih
      { now := ms
        seq := st.seq + 1
        bytesFlashed := (st.bytesFlashed + p.length) % 65536
        flash := st.flash ++ payloadOps st.bytesFlashed p
        sent := st.sent ++ [sprintfOK st.seq]
        acked := st.acked ++ [p] }
      (st.seq + 1) rfl (by omega)
      (fun q hq => hne q (List.mem_cons_of_mem _ hq))
      (fun q hq => hb q (List.mem_cons_of_mem _ hq))
      (Nat.mod_lt _ (by norm_num))
    refine ⟨st1, ?_, ?_, ?_⟩
    · rw [chunkInputs, runLoop, hstep]
      exact h1
    · rw [h2, List.length_cons]
      omega
    · rw [h3]
      simp

theorem flatten_replicate_length (k m x : Nat) :
    (List.replicate k (List.replicate m x)).flatten.length = k * m := by
  induction k with
  | zero => simp
  | succ k ih =>
    rw [List.replicate_succ, List.flatten_cons, List.length_append, ih, List.length_replicate]
    rw [Nat.succ_mul]
    omega

/-- A session of at most 1000 consecutive data frames followed by `FLX?EOF` is
committed whenever the 16-bit count of its payload bytes is at most 31744. -/
theorem HandleWirelessHEXData_chunks_eof (remoteID ms : Nat) (flash0 : List FlashOp)
    (payloads : List (List Nat)) (hlen : payloads.length ≤ 1000)
    (hne : ∀ p ∈ payloads, p ≠ []) (hb : ∀ p ∈ payloads, ∀ b ∈ p, b < 256)
    (hms : ms < 4294967296) (hsmall : payloads.flatten.length % 65536 ≤ 31744) :
    ∃ st, HandleWirelessHEXData remoteID flash0 ms
        (chunkInputs remoteID ms 0 payloads ++ [received remoteID FLX_EOF ms])
          = Outcome.returned true st ∧
      st.acked = payloads ∧
      st.flash = flash0 ++ sessionStartOps ++ payloadOps 10 payloads.flatten ++
        commitOps payloads.flatten.length := by
  obtain ⟨st1, h1, -, h3⟩ := runLoop_chunks remoteID ms payloads (rxStart flash0 ms) 0 rfl
    (by omega) hne hb (by show 10 < 65536; norm_num) hms
  have h3b : st1.acked = payloads := by
    rw [h3]
    rfl
  have hinv : RxInv flash0 st1 := by
    have := runLoop_good flash0 remoteID (rxStart flash0 ms)
      (chunkInputs remoteID ms 0 payloads) (rxStart_inv flash0 ms)
    rw [h1] at this
    exact this
  have hbf : (65536 + st1.bytesFlashed - 10) % 65536 = payloads.flatten.length % 65536 := by
    rw [hinv.1, h3b]
    omega
  have hstep := rxLoopBody_eof remoteID st1 (received remoteID FLX_EOF ms) [] rfl rfl rfl rfl
    (by simp [received])
  rw [if_neg (by rw [hbf]; omega), hbf] at hstep
  refine ⟨{ st1 with
      sent := st1.sent ++ [FLX_OK]
      flash := SPIFlash.writeByte (SPIFlash.writeByte (SPIFlash.writeByte st1.flash 7
        (payloads.flatten.length % 65536 / 256)) 8 (payloads.flatten.length % 65536)) 9 58 },
    ?_, h3b, ?_⟩
  · unfold HandleWirelessHEXData
    rw [runLoop_append, h1]
    show runLoop (rxLoopBody remoteID) st1 [received remoteID FLX_EOF ms] = _
    rw [runLoop, hstep]
  · have e1 : payloads.flatten.length % 65536 / 256 % 256
        = payloads.flatten.length % 65536 / 256 := by omega
    simp only [SPIFlash.writeByte, commitOps, hinv.2, h3b, List.append_assoc, e1]
    rfl

/-! ## One pass of the host relay on a line `FLX:...` -/

theorem txLoopBody_data (TIMEOUT : Nat) (st : TxState) (inp : TxInput)
    (h6 : 6 ≤ inp.inputLen) (d0 : inp.input.getD 0 0 = 70) (d1 : inp.input.getD 1 0 = 76)
    (d2 : inp.input.getD 2 0 = 88) (d3 : inp.input.getD 3 0 = 58) :
    txLoopBody TIMEOUT st inp =
      match txData st inp with
      | Outcome.returned b s => Outcome.returned b s
      | Outcome.running s =>
        if elapsed inp.msCheck s.now > TIMEOUT then
          Outcome.returned false { s with serial := s.serial ++ [timeoutMessage] }
        else Outcome.running s := by
  unfold txLoopBody
  rw [if_neg (show ¬ inp.inputLen = 0 by omega)]
  unfold txLine
  rw [if_pos ⟨h6, d0, d1, d2⟩]
  cases hd : txData st inp with
  | returned b s => rfl
  | running s =>
    dsimp only
    rw [if_neg (by rw [d3]; omega)]

/-- A line `FLX:...` of at least 6 characters whose header does not parse ends
the host session: the routine returns failure, having done nothing. -/
theorem txLoopBody_malformed (TIMEOUT : Nat) (st : TxState) (inp : TxInput)
    (h6 : 6 ≤ inp.inputLen) (d0 : inp.input.getD 0 0 = 70) (d1 : inp.input.getD 1 0 = 76)
    (d2 : inp.input.getD 2 0 = 88) (d3 : inp.input.getD 3 0 = 58)
    (hp : parseHeader inp.input = none) :
    txLoopBody TIMEOUT st inp = Outcome.returned false st := by
  rw [txLoopBody_data TIMEOUT st inp h6 d0 d1 d2 d3]
  unfold txData
  rw [if_pos d3, hp]

/-- A line whose header parses and whose remaining characters are rejected by
`validateHEXData` is answered `FLX:INV`; nothing is sent over the radio, the
expected sequence number stays and the loop goes on. -/
theorem txLoopBody_invalid (TIMEOUT : Nat) (st : TxState) (inp : TxInput) (tmp index : Nat)
    (h6 : 6 ≤ inp.inputLen) (d0 : inp.input.getD 0 0 = 70) (d1 : inp.input.getD 1 0 = 76)
    (d2 : inp.input.getD 2 0 = 88) (d3 : inp.input.getD 3 0 = 58)
    (hp : parseHeader inp.input = some (tmp, index))
    (hv : validateHEXData (inp.input.drop index)
      ((65536 + inp.inputLen - index) % 65536 % 256) = 0)
    (ht : elapsed inp.msCheck inp.msGood ≤ TIMEOUT) :
    txLoopBody TIMEOUT st inp =
      Outcome.running { st with now := inp.msGood, serial := st.serial ++ [FLX_INV] } := by
  rw [txLoopBody_data TIMEOUT st inp h6 d0 d1 d2 d3]
  unfold txData
  rw [if_pos d3, hp]
  dsimp only
  rw [hv, if_neg (by omega)]
  dsimp only
  rw [if_neg (by omega)]

/-- A line whose header parses, whose remaining characters are accepted by
`validateHEXData` and whose number is not the expected sequence number is
skipped: nothing is printed or sent and the loop goes on. -/
theorem txLoopBody_ignore (TIMEOUT : Nat) (st : TxState) (inp : TxInput) (tmp index : Nat)
    (h6 : 6 ≤ inp.inputLen) (d0 : inp.input.getD 0 0 = 70) (d1 : inp.input.getD 1 0 = 76)
    (d2 : inp.input.getD 2 0 = 88) (d3 : inp.input.getD 3 0 = 58)
    (hp : parseHeader inp.input = some (tmp, index))
    (hv : 0 < validateHEXData (inp.input.drop index)
      ((65536 + inp.inputLen - index) % 65536 % 256))
    (hne : tmp ≠ st.seq)
    (ht : elapsed inp.msCheck inp.msGood ≤ TIMEOUT) :
    txLoopBody TIMEOUT st inp = Outcome.running { st with now := inp.msGood } := by
  rw [txLoopBody_data TIMEOUT st inp h6 d0 d1 d2 d3]
  unfold txData
  rw [if_pos d3, hp]
  dsimp only
  rw [if_pos hv, if_neg hne]
  dsimp only
  rw [if_neg (by omega)]

/-- A header whose sequence field is open is rejected by the parser. -/
theorem parseHeader_of_open (Data : List Nat) (len : Nat) (h : seqFieldOpen Data len) :
    parseHeader Data = none := by
  rw [parseHeader_eq_none_iff]
  rcases h with h | ⟨-, h5, h6, h7⟩
  · exact Or.inl h
  · exact Or.inr ⟨h5, h6, h7⟩

/-- A header whose sequence field is closed is accepted by the parser, and the
header it finds ends inside the frame or line. -/
theorem parseHeader_of_closed (Data : List Nat) (len : Nat) (h : seqFieldClosed Data len) :
    ∃ tmp index, parseHeader Data = some (tmp, index) ∧ index ≤ len := by
  obtain ⟨h4, hc⟩ := h
  unfold parseHeader
  obtain ⟨t1, e1⟩ := readSEQ_other Data 3 4 3 0 h4
  rw [e1]
  by_cases h5 : Data.getD 5 0 = 58
  · have l5 : 5 < len := by
      rcases hc with ⟨l, -⟩ | ⟨l, -⟩ | ⟨l, -⟩ <;> omega
    rw [readSEQ_colon Data 2 5 _ t1 h5]
    refine ⟨t1, 6, ?_, by omega⟩
    simp [-List.getD_eq_getElem?_getD, h5]
  · obtain ⟨t2, e2⟩ := readSEQ_other Data 2 5 _ t1 h5
    rw [e2]
    by_cases h6 : Data.getD 6 0 = 58
    · have l6 : 6 < len := by
        rcases hc with ⟨-, c⟩ | ⟨l, -⟩ | ⟨l, -⟩
        · exact absurd c h5
        · omega
        · omega
      rw [readSEQ_colon Data 1 6 _ t2 h6]
      refine ⟨t2, 7, ?_, by omega⟩
      simp [-List.getD_eq_getElem?_getD, h6]
    · obtain ⟨t3, e3⟩ := readSEQ_other Data 1 6 _ t2 h6
      rw [e3]
      have h7 : Data.getD 7 0 = 58 ∧ 7 < len := by
        rcases hc with ⟨-, c⟩ | ⟨-, c⟩ | ⟨l, c⟩
        · exact absurd c h5
        · exact absurd c h6
        · exact ⟨c, l⟩
      rw [readSEQ_colon Data 0 7 _ t3 h7.1]
      refine ⟨t3, 8, ?_, by omega⟩
      simp [-List.getD_eq_getElem?_getD, h7.1]

/-- A frame `FLX:...` that is shorter than 7 bytes, or that is not received
complete, with a good CRC and from the session's sender, is skipped by the
receiver: nothing changes and the loop goes on. -/
theorem rxLoopBody_skip (remoteID : Nat) (st : RxState) (inp : RxInput)
    (d3 : inp.Data.getD 3 0 = 58)
    (h : ¬ (inp.receiveComplete = true ∧ inp.crcPass = true ∧ inp.sender = remoteID) ∨
      inp.dataLen < 7)
    (ht : elapsed inp.msCheck st.now ≤ 3000) :
    rxLoopBody remoteID st inp = Outcome.running st := by
  unfold rxLoopBody
  by_cases hf : inp.receiveComplete = true ∧ inp.crcPass = true ∧ inp.sender = remoteID
  · have hlen : inp.dataLen < 7 := by
      rcases h with h | h
      · exact absurd hf h
      · exact h
    rw [if_pos hf]
    unfold rxPacket
    by_cases hx : 4 ≤ inp.dataLen ∧ inp.Data.getD 0 0 = 70 ∧ inp.Data.getD 1 0 = 76 ∧
        inp.Data.getD 2 0 = 88
    · rw [if_pos hx]
      unfold rxData
      rw [if_neg (show ¬ (inp.Data.getD 3 0 = 58 ∧ 7 ≤ inp.dataLen) by omega)]
      dsimp only
      unfold rxQuery
      rw [if_neg (by rw [d3]; omega)]
      dsimp only
      rw [if_neg (by omega)]
    · rw [if_neg hx]
      dsimp only
      rw [if_neg (by omega)]
  · rw [if_neg hf]
    dsimp only
    rw [if_neg (by omega)]

/-- A line shorter than 6 characters is skipped by the host: nothing is printed
or sent and the loop goes on. -/
theorem txLoopBody_skip (TIMEOUT : Nat) (st : TxState) (inp : TxInput)
    (h : inp.inputLen < 6) (ht : elapsed inp.msCheck st.now ≤ TIMEOUT) :
    txLoopBody TIMEOUT st inp = Outcome.running st := by
  unfold txLoopBody
  by_cases h0 : inp.inputLen = 0
  · rw [if_pos h0]
    dsimp only
    rw [if_neg (by omega)]
  · rw [if_neg h0]
    unfold txLine
    rw [if_neg (by omega)]
    dsimp only
    rw [if_neg (by omega)]

/-! ## Facts about the commands of a session -/

theorem writtenOffsets_append (xs ys : List FlashOp) :
    writtenOffsets (xs ++ ys) = writtenOffsets xs ++ writtenOffsets ys := by
  unfold writtenOffsets
  rw [List.map_append, List.flatten_append]

theorem offsets_program_one (addr b : Nat) : (FlashOp.program addr [b]).offsets = [addr] := by
  have e : pageAddr addr 0 = addr := by unfold pageAddr; omega
  show [pageAddr addr 0] = [addr]
  rw [e]

theorem writtenOffsets_payloadOps (bytes : List Nat) (bf : Nat)
    (h : bf + bytes.length ≤ 65536) :
    writtenOffsets (payloadOps bf bytes) = List.range' bf bytes.length := by
  induction bytes generalizing bf with
  | nil => rfl
  | cons b bs ih =>
    rw [List.length_cons] at h
    have e1 : bf % 16777216 = bf := by omega
    rw [payloadOps, e1, List.length_cons, List.range'_succ]
    show (FlashOp.program bf [b % 256]).offsets ++ writtenOffsets (payloadOps _ bs) = _
    rw [offsets_program_one]
    cases bs with
    | nil => rfl
    | cons c cs =>
      rw [List.length_cons] at h
      have e2 : (bf + 1) % 65536 = bf + 1 := by omega
      rw [e2, ih (bf + 1) (by rw [List.length_cons]; omega)]
      rfl

theorem mem_payloadOps (bytes : List Nat) (bf : Nat) (h : bf + bytes.length ≤ 65536)
    (op : FlashOp) (hop : op ∈ payloadOps bf bytes) :
    ∃ a b, op = FlashOp.program a [b] ∧ bf ≤ a ∧ a < bf + bytes.length := by
  induction bytes generalizing bf with
  | nil => simp [payloadOps] at hop
  | cons b bs ih =>
    rw [List.length_cons] at h ⊢
    have e1 : bf % 16777216 = bf := by omega
    rw [payloadOps, e1, List.mem_cons] at hop
    rcases hop with hop | hop
    · exact ⟨bf, b % 256, hop, by omega, by omega⟩
    · cases bs with
      | nil => simp [payloadOps] at hop
      | cons c cs =>
        rw [List.length_cons] at h
        have e2 : (bf + 1) % 65536 = bf + 1 := by omega
        rw [e2] at hop
        obtain ⟨a, b2, h1, h2, h3⟩ := ih (bf + 1) (by rw [List.length_cons]; omega) hop
        rw [List.length_cons] at h3 ⊢
        exact ⟨a, b2, h1, by omega, by omega⟩

theorem payloadOps_isErase (bytes : List Nat) (bf : Nat) (op : FlashOp)
    (hop : op ∈ payloadOps bf bytes) : op.isErase = false := by
  induction bytes generalizing bf with
  | nil => simp [payloadOps] at hop
  | cons b bs ih =>
    rw [payloadOps, List.mem_cons] at hop
    rcases hop with h | h
    · rw [h]; rfl
    · exact ih _ h

/-- The commands of a session, with or without the final commit and whatever
the payload, begin with the erase of block 0 and contain no other erase. -/
theorem session_ops_erase_once (bytes : List Nat) (extra : List FlashOp)
    (hextra : extra = [] ∨ ∃ n, extra = commitOps n) :
    (sessionStartOps ++ payloadOps 10 bytes ++ extra).head? = some (FlashOp.erase32K 0) ∧
    ∀ op ∈ (sessionStartOps ++ payloadOps 10 bytes ++ extra).tail, op.isErase = false := by
  have htail : (sessionStartOps ++ payloadOps 10 bytes ++ extra).tail =
      [FlashOp.program 0 FLXIMG, FlashOp.program 9 [58]] ++ payloadOps 10 bytes ++ extra := rfl
  refine ⟨rfl, ?_⟩
  intro op hop
  rw [htail] at hop
  simp only [List.mem_append, List.mem_cons, List.mem_singleton, List.not_mem_nil,
    or_false] at hop
  rcases hop with ((h | h) | h) | h
  · rw [h]; rfl
  · rw [h]; rfl
  · exact payloadOps_isErase bytes 10 op h
  · rcases hextra with he | ⟨n, he⟩
    · rw [he] at h; simp at h
    · rw [he] at h
      simp only [commitOps, List.mem_cons, List.mem_singleton, List.not_mem_nil,
        or_false] at h
      rcases h with h | h | h <;> (rw [h]; rfl)

theorem writtenOffsets_session (bytes : List Nat) (extra : List FlashOp)
    (hN : bytes.length ≤ 65526) :
    writtenOffsets (sessionStartOps ++ payloadOps 10 bytes ++ extra).tail =
      [0, 1, 2, 3, 4, 5, 6, 9] ++ List.range' 10 bytes.length ++ writtenOffsets extra := by
  have htail : (sessionStartOps ++ payloadOps 10 bytes ++ extra).tail =
      [FlashOp.program 0 FLXIMG, FlashOp.program 9 [58]] ++ payloadOps 10 bytes ++ extra := rfl
  rw [htail, writtenOffsets_append, writtenOffsets_append,
    writtenOffsets_payloadOps bytes 10 (by omega)]
  rfl

theorem nodup_session_offsets (n : Nat) (tl : List Nat) (htl : tl = [] ∨ tl = [7, 8]) :
    ([0, 1, 2, 3, 4, 5, 6, 9] ++ List.range' 10 n ++ tl).Nodup := by
  have h1 : ([0, 1, 2, 3, 4, 5, 6, 9] ++ List.range' 10 n).Nodup := by
    apply List.Nodup.append (by decide) (List.nodup_range' 10 n)
    intro a ha hb
    rw [List.mem_range'_1] at hb
    simp at ha
    omega
  rcases htl with e | e
  · rw [e, List.append_nil]
    exact h1
  · rw [e]
    apply List.Nodup.append h1 (by decide)
    intro a ha hb
    rw [List.mem_append, List.mem_range'_1] at ha
    simp at hb
    rcases ha with ha | ha
    · simp at ha
      omega
    · omega

/-- The commands of a session that has not ended with success respect erase
before write, as long as the payload fits block 0. -/
theorem session_ops_sentinel_open (bytes : List Nat) (hN : bytes.length ≤ 32758) :
    EraseBeforeWriteSentinel (sessionStartOps ++ payloadOps 10 bytes) false := by
  have he := session_ops_erase_once bytes [] (Or.inl rfl)
  have ho := writtenOffsets_session bytes [] (by omega)
  rw [List.append_nil] at he ho
  have ho2 : writtenOffsets (sessionStartOps ++ payloadOps 10 bytes).tail =
      [0, 1, 2, 3, 4, 5, 6, 9] ++ List.range' 10 bytes.length ++ [] := ho
  refine ⟨rfl, he.2, ?_, ?_⟩
  · intro a ha
    rw [ho2, List.append_nil, List.mem_append, List.mem_range'_1] at ha
    rcases ha with h | h
    · simp at h; omega
    · omega
  · rw [if_neg (by decide), ho2]
    exact nodup_session_offsets bytes.length [] (Or.inl rfl)

/-- The commands of a session that ends with success respect erase before write
up to the sentinel, as long as the payload fits block 0: the sentinel is
programmed once more by the last command. -/
theorem session_ops_sentinel_committed (bytes : List Nat) (n : Nat)
    (hN : bytes.length ≤ 32758) :
    EraseBeforeWriteSentinel (sessionStartOps ++ payloadOps 10 bytes ++ commitOps n) true := by
  have he := session_ops_erase_once bytes (commitOps n) (Or.inr ⟨n, rfl⟩)
  have ho := writtenOffsets_session bytes (commitOps n) (by omega)
  have ho2 := writtenOffsets_session bytes
    [FlashOp.program 7 [n % 65536 / 256], FlashOp.program 8 [n % 65536 % 256]] (by omega)
  refine ⟨rfl, he.2, ?_, ?_⟩
  · intro a ha
    rw [ho, List.mem_append, List.mem_append, List.mem_range'_1] at ha
    rcases ha with (h | h) | h
    · simp at h; omega
    · omega
    · have e : writtenOffsets (commitOps n) = [7, 8, 9] := rfl
      rw [e] at h
      simp at h
      omega
  · rw [if_pos rfl]
    refine ⟨sessionStartOps ++ payloadOps 10 bytes, n % 65536 / 256, n % 65536 % 256,
      rfl, ?_⟩
    rw [ho2]
    exact nodup_session_offsets bytes.length _ (Or.inr rfl)

/-- Every session whose payload has more than 32758 bytes (and has not wrapped
the 16-bit counter) programs offset 32768, the first one behind block 0. -/
theorem session_writes_outside_block (bytes : List Nat) (extra : List FlashOp)
    (h1 : 32758 < bytes.length) (h2 : bytes.length ≤ 65526) :
    32768 ∈ writtenOffsets (sessionStartOps ++ payloadOps 10 bytes ++ extra).tail := by
  rw [writtenOffsets_session bytes extra h2, List.mem_append, List.mem_append,
    List.mem_range'_1]
  left
  right
  omega

/-- A session of at most 1000 consecutive data frames stays in the loop, having
acknowledged every frame and programmed its payload. -/
theorem HandleWirelessHEXData_chunks (remoteID ms : Nat) (flash0 : List FlashOp)
    (payloads : List (List Nat)) (hlen : payloads.length ≤ 1000)
    (hne : ∀ p ∈ payloads, p ≠ []) (hb : ∀ p ∈ payloads, ∀ b ∈ p, b < 256)
    (hms : ms < 4294967296) :
    ∃ st, HandleWirelessHEXData remoteID flash0 ms (chunkInputs remoteID ms 0 payloads)
          = Outcome.running st ∧
      st.acked = payloads ∧
      st.flash = flash0 ++ (sessionStartOps ++ payloadOps 10 payloads.flatten) := by
  obtain ⟨st1, h1, -, h3⟩ := runLoop_chunks remoteID ms payloads (rxStart flash0 ms) 0 rfl
    (by omega) hne hb (by show 10 < 65536; norm_num) hms
  have h3b : st1.acked = payloads := by
    rw [h3]
    rfl
  have hinv : RxInv flash0 st1 := by
    have := runLoop_good flash0 remoteID (rxStart flash0 ms)
      (chunkInputs remoteID ms 0 payloads) (rxStart_inv flash0 ms)
    rw [h1] at this
    exact this
  refine ⟨st1, h1, h3b, ?_⟩
  rw [hinv.2, h3b, List.append_assoc]

/-- A session whose acknowledged payload exceeds 31744 bytes but does not make
the 16-bit counter wrap around (at most 65526 bytes) fails on `FLX?EOF`, and
none of its commands programs offset 7 or 8. -/
theorem HandleWirelessHEXData_overflow_rejected (remoteID ms : Nat) (flash0 : List FlashOp)
    (ins : List RxInput) (st : RxState) (eof : RxInput) (tail : List Nat)
    (hrun : HandleWirelessHEXData remoteID flash0 ms ins = Outcome.running st)
    (hN1 : 31744 < st.acked.flatten.length) (hN2 : st.acked.flatten.length ≤ 65526)
    (h1 : eof.receiveComplete = true) (h2 : eof.crcPass = true) (h3 : eof.sender = remoteID)
    (h4 : eof.dataLen = 7) (h5 : eof.Data = FLX_EOF ++ tail) :
    HandleWirelessHEXData remoteID flash0 ms (ins ++ [eof]) = Outcome.returned false st ∧
    ∃ ops, st.flash = flash0 ++ ops ∧ 7 ∉ writtenOffsets ops ∧ 8 ∉ writtenOffsets ops := by
  have hinv : RxInv flash0 st := by
    have := HandleWirelessHEXData_good flash0 remoteID ms ins
    rw [hrun] at this
    exact this
  have hbf : (65536 + st.bytesFlashed - 10) % 65536 = st.acked.flatten.length := by
    rw [hinv.1]
    omega
  have hstep := rxLoopBody_eof remoteID st eof tail h1 h2 h3 h4 h5
  rw [if_pos (by rw [hbf]; omega)] at hstep
  have hoff : writtenOffsets (sessionStartOps ++ payloadOps 10 st.acked.flatten) =
      [0, 1, 2, 3, 4, 5, 6, 9] ++ List.range' 10 st.acked.flatten.length := by
    rw [writtenOffsets_append, writtenOffsets_payloadOps _ 10 (by omega)]
    rfl
  refine ⟨?_, sessionStartOps ++ payloadOps 10 st.acked.flatten, ?_, ?_, ?_⟩
  · unfold HandleWirelessHEXData at hrun ⊢
    rw [runLoop_append, hrun]
    show runLoop (rxLoopBody remoteID) st [eof] = _
    rw [runLoop, hstep]
  · rw [hinv.2, List.append_assoc]
  · rw [hoff, List.mem_append, List.mem_range'_1]
    simp
  · rw [hoff, List.mem_append, List.mem_range'_1]
    simp

/-! ## Facts about the parsed header and the send buffer -/

theorem readSEQ_next (Data : List Nat) (n i index tmp : Nat) (h : Data.getD i 0 ≠ 58) :
    ∃ tmp1, tmp1 ≤ tmp * 10 + 9 ∧
      readSEQ Data (n + 1) i index tmp = readSEQ Data n (i + 1) ((index + 1) % 256) tmp1 := by
  by_cases hd : 48 ≤ Data.getD i 0 ∧ Data.getD i 0 ≤ 57
  · refine ⟨(tmp * 10 + Data.getD i 0 - 48) % 65536, ?_, readSEQ_digit Data n i index tmp hd⟩
    have := Nat.mod_le (tmp * 10 + Data.getD i 0 - 48) 65536
    omega
  · exact ⟨tmp, by omega, by rw [readSEQ, if_neg hd, if_neg h]⟩

/-- A header that parses has its second colon at offset 5, 6 or 7, and its
sequence number has at most as many digits as there are characters before that
colon. -/
theorem parseHeader_some_bounds (Data : List Nat) (tmp index : Nat)
    (hp : parseHeader Data = some (tmp, index)) :
    (index = 6 ∧ tmp ≤ 9) ∨ (index = 7 ∧ tmp ≤ 99) ∨ (index = 8 ∧ tmp ≤ 999) := by
  unfold parseHeader at hp
  by_cases h4 : Data.getD 4 0 = 58
  · rw [readSEQ_colon Data 3 4 3 0 h4] at hp
    simp at hp
  · obtain ⟨t1, b1, e1⟩ := readSEQ_next Data 3 4 3 0 h4
    rw [e1] at hp
    by_cases h5 : Data.getD 5 0 = 58
    · rw [readSEQ_colon Data 2 5 _ t1 h5] at hp
      simp [-List.getD_eq_getElem?_getD, h5] at hp
      omega
    · obtain ⟨t2, b2, e2⟩ := readSEQ_next Data 2 5 _ t1 h5
      rw [e2] at hp
      by_cases h6 : Data.getD 6 0 = 58
      · rw [readSEQ_colon Data 1 6 _ t2 h6] at hp
        simp [-List.getD_eq_getElem?_getD, h6] at hp
        omega
      · obtain ⟨t3, b3, e3⟩ := readSEQ_next Data 1 6 _ t2 h6
        rw [e3] at hp
        by_cases h7 : Data.getD 7 0 = 58
        · rw [readSEQ_colon Data 0 7 _ t3 h7] at hp
          simp [-List.getD_eq_getElem?_getD, h7] at hp
          omega
        · obtain ⟨t4, -, e4⟩ := readSEQ_next Data 0 7 _ t3 h7
          rw [e4] at hp
          simp [-List.getD_eq_getElem?_getD, readSEQ, h7] at hp

theorem sprintfHeader_length_le (seq : Nat) :
    (seq ≤ 9 → (sprintfHeader seq).length = 6) ∧
    (seq ≤ 99 → (sprintfHeader seq).length ≤ 7) ∧
    (seq ≤ 999 → (sprintfHeader seq).length ≤ 8) := by
  have l1 : seq < 10 → (sprintfHeader seq).length = 6 := by
    intro h
    rw [sprintfHeader, utoa_one seq h]
    rfl
  have l2 : 10 ≤ seq → seq < 100 → (sprintfHeader seq).length = 7 := by
    intro h h2
    rw [sprintfHeader, utoa_two seq h h2]
    rfl
  have l3 : 100 ≤ seq → seq < 1000 → (sprintfHeader seq).length = 8 := by
    intro h h2
    rw [sprintfHeader, utoa_three seq h h2]
    rfl
  refine ⟨fun h => l1 (by omega), fun h => ?_, fun h => ?_⟩
  · by_cases h1 : seq < 10
    · rw [l1 h1]; omega
    · rw [l2 (by omega) (by omega)]
  · by_cases h1 : seq < 10
    · rw [l1 h1]; omega
    · by_cases h2 : seq < 100
      · rw [l2 (by omega) h2]; omega
      · rw [l3 (by omega) (by omega)]

theorem decodeHEX_length (hexdata : List Nat) (length : Nat) :
    (decodeHEX hexdata length).length = length := by
  simp [decodeHEX]

theorem accepted_of_pos (input : List Nat) (length : Nat)
    (h : 0 < validateHEXData input length) : Accepted input length := by
  by_contra hn
  rw [validateHEXData_reject input length hn] at h
  exact absurd h (by decide)

/-- The size of the frame built for a line of at most 63 characters that
contains the header the parser found (`index ≤ inputLen`): header and decoded
payload take at most 30 bytes, whatever the buffer holds behind the line. -/
theorem sendBuf_size (input : List Nat) (inputLen tmp index : Nat)
    (hlen : inputLen ≤ 63) (hin : index ≤ inputLen)
    (hp : parseHeader input = some (tmp, index))
    (hv : 0 < validateHEXData (input.drop index) ((65536 + inputLen - index) % 65536 % 256)) :
    (sprintfHeader tmp).length +
      validateHEXData (input.drop index) ((65536 + inputLen - index) % 65536 % 256) ≤ 30 ∧
    6 ≤ (sprintfHeader tmp).length := by
  have hacc := accepted_of_pos _ _ hv
  have hval := validateHEXData_accept _ _ hacc
  obtain ⟨hge, hev, hall, -, hl⟩ := hacc
  have hb := parseHeader_some_bounds input tmp index hp
  have hh := sprintfHeader_length_le tmp
  have h6 := sprintfHeader_length tmp
  rw [hval]
  refine ⟨?_, h6⟩
  rcases hb with ⟨hi, ht⟩ | ⟨hi, ht⟩ | ⟨hi, ht⟩
  · have := hh.1 ht
    omega
  · have := hh.2.1 ht
    omega
  · have := hh.2.2 ht
    omega

/-! ## Facts about the bounds-checked parsing -/

theorem readAt_of_lt (buf : List Nat) (len i : Nat) (h : i < len) :
    readAt buf len i = some (buf.getD i 0) := by
  unfold readAt
  rw [if_pos h]

theorem testAt_of_lt (buf : List Nat) (len i c : Nat) (h : i < len) :
    testAt buf len i c = some (decide (buf.getD i 0 = c)) := by
  unfold testAt
  rw [readAt_of_lt buf len i h]

/-- The checked loop computes what the loop computes, when it reads in bounds. -/
theorem readSEQChecked_sound (Data : List Nat) (len n i index tmp : Nat)
    (r : Option (Nat × Nat)) (h : readSEQChecked Data len n i index tmp = some r) :
    readSEQ Data n i index tmp = r := by
  induction n generalizing i index tmp with
  | zero =>
    rw [readSEQChecked] at h
    rw [readSEQ]
    exact Option.some.inj h
  | succ n ih =>
    rw [readSEQChecked] at h
    by_cases hi : i < len
    · rw [readAt_of_lt Data len i hi] at h
      dsimp only at h
      rw [readSEQ]
      by_cases hd : 48 ≤ Data.getD i 0 ∧ Data.getD i 0 ≤ 57
      · rw [if_pos hd] at h ⊢
        exact ih _ _ _ h
      · rw [if_neg hd] at h ⊢
        by_cases hc : Data.getD i 0 = 58
        · rw [if_pos hc] at h ⊢
          by_cases h4 : i = 4
          · rw [if_pos h4] at h ⊢
            exact Option.some.inj h
          · rw [if_neg h4] at h ⊢
            exact Option.some.inj h
        · rw [if_neg hc] at h ⊢
          exact ih _ _ _ h
    · unfold readAt at h
      rw [if_neg hi] at h
      exact absurd h (by simp)

/-- The checked header parsing computes what `parseHeader` computes, when it reads
in bounds. -/
theorem parseHeaderChecked_sound (Data : List Nat) (len : Nat) (r : Option (Nat × Nat))
    (h : parseHeaderChecked Data len = some r) : parseHeader Data = r := by
  unfold parseHeaderChecked at h
  unfold parseHeader
  cases hs : readSEQChecked Data len 4 4 3 0 with
  | none => rw [hs] at h; exact absurd h (by simp)
  | some q =>
    rw [hs] at h
    rw [readSEQChecked_sound Data len 4 4 3 0 q hs]
    cases q with
    | none => exact Option.some.inj h
    | some p =>
      obtain ⟨tmp, index⟩ := p
      dsimp only at h ⊢
      by_cases hi : index < len
      · rw [readAt_of_lt Data len index hi] at h
        dsimp only at h
        by_cases hc : Data.getD index 0 ≠ 58
        · rw [if_pos hc] at h ⊢
          exact Option.some.inj h
        · rw [if_neg hc] at h ⊢
          exact Option.some.inj h
      · unfold readAt at h
        rw [if_neg hi] at h
        exact absurd h (by simp)

theorem readSEQChecked_eq (Data : List Nat) (len n i index tmp : Nat) (h8 : 8 ≤ len)
    (hi : i + n ≤ 8) :
    readSEQChecked Data len n i index tmp = some (readSEQ Data n i index tmp) := by
  induction n generalizing i index tmp with
  | zero => rfl
  | succ n ih =>
    rw [readSEQChecked, readAt_of_lt Data len i (by omega), readSEQ]
    dsimp only
    by_cases hd : 48 ≤ Data.getD i 0 ∧ Data.getD i 0 ≤ 57
    · rw [if_pos hd, if_pos hd]
      exact ih _ _ _ (by omega)
    · rw [if_neg hd, if_neg hd]
      by_cases hc : Data.getD i 0 = 58
      · rw [if_pos hc, if_pos hc]
        by_cases h4 : i = 4
        · rw [if_pos h4, if_pos h4]
        · rw [if_neg h4, if_neg h4]
      · rw [if_neg hc, if_neg hc]
        exact ih _ _ _ (by omega)

theorem readSEQ_index_le (Data : List Nat) (n i index tmp t idx : Nat)
    (h : readSEQ Data n i index tmp = some (t, idx)) (hn : index + n ≤ 255) :
    idx ≤ index + n := by
  induction n generalizing i index tmp with
  | zero =>
    rw [readSEQ] at h
    have := Option.some.inj h
    have h2 := congrArg Prod.snd this
    simp at h2
    omega
  | succ n ih =>
    rw [readSEQ] at h
    have e : (index + 1) % 256 = index + 1 := by omega
    rw [e] at h
    by_cases hd : 48 ≤ Data.getD i 0 ∧ Data.getD i 0 ≤ 57
    · rw [if_pos hd] at h
      have := ih _ _ _ h (by omega)
      omega
    · rw [if_neg hd] at h
      by_cases hc : Data.getD i 0 = 58
      · rw [if_pos hc] at h
        by_cases h4 : i = 4
        · rw [if_pos h4] at h
          exact absurd h (by simp)
        · rw [if_neg h4] at h
          have := Option.some.inj h
          have h2 := congrArg Prod.snd this
          simp at h2
          omega
      · rw [if_neg hc] at h
        have := ih _ _ _ h (by omega)
        omega

/-- In a frame or line of at least 8 bytes the header parsing reads in bounds. -/
theorem parseHeaderChecked_eq (Data : List Nat) (len : Nat) (h8 : 8 ≤ len) :
    parseHeaderChecked Data len = some (parseHeader Data) := by
  unfold parseHeaderChecked parseHeader
  rw [readSEQChecked_eq Data len 4 4 3 0 h8 (by omega)]
  cases hs : readSEQ Data 4 4 3 0 with
  | none => rfl
  | some p =>
    obtain ⟨tmp, index⟩ := p
    have hidx := readSEQ_index_le Data 4 4 3 0 tmp index hs (by omega)
    dsimp only
    rw [readAt_of_lt Data len index (by omega)]
    dsimp only
    by_cases hc : Data.getD index 0 ≠ 58
    · rw [if_pos hc, if_pos hc]
    · rw [if_neg hc, if_neg hc]

/-- The payload loop reads in bounds. -/
theorem payloadChecked_eq (Data : List Nat) (len n i : Nat) (h : i + n ≤ len) :
    payloadChecked Data len n i = some ((List.range n).map (fun k => Data.getD (i + k) 0)) := by
  induction n generalizing i with
  | zero => rfl
  | succ n ih =>
    rw [payloadChecked, readAt_of_lt Data len i (by omega), ih (i + 1) (by omega)]
    dsimp only
    rw [List.range_succ_eq_map, List.map_cons, List.map_map]
    have e2 : (fun k => Data.getD (i + 1 + k) 0) = ((fun k => Data.getD (i + k) 0) ∘ Nat.succ) := by
      funext k
      simp only [Function.comp, Nat.succ_eq_add_one]
      congr 1
      omega
    rw [e2]
    rfl

/-- A received frame of at least 8 bytes is parsed with all reads below `dataLen`. -/
theorem rxParseChecked_of_le (inp : RxInput) (h8 : 8 ≤ inp.dataLen) :
    rxParseChecked inp ≠ none := by
  unfold rxParseChecked
  rw [testAt_of_lt _ _ 0 70 (by omega), testAt_of_lt _ _ 1 76 (by omega),
    testAt_of_lt _ _ 2 88 (by omega), testAt_of_lt _ _ 3 58 (by omega),
    parseHeaderChecked_eq _ _ h8]
  have h4 : decide (4 ≤ inp.dataLen) = true := by simp; omega
  have h7 : decide (7 ≤ inp.dataLen) = true := by simp; omega
  rw [h4, h7]
  cases decide (inp.Data.getD 0 0 = 70) <;> cases decide (inp.Data.getD 1 0 = 76) <;>
    cases decide (inp.Data.getD 2 0 = 88) <;> cases decide (inp.Data.getD 3 0 = 58) <;>
    simp only [andThen] <;> try simp
  cases hp : parseHeader inp.Data with
  | none => simp
  | some p =>
    obtain ⟨tmp, index⟩ := p
    dsimp only
    by_cases hi : index ≤ inp.dataLen
    · rw [payloadChecked_eq _ _ _ _ (by omega)]
      simp
    · have e : inp.dataLen - index = 0 := by omega
      rw [e, payloadChecked]
      simp

/-- A serial line of at least 8 characters has its header parsed with all reads
below `inputLen`. -/
theorem txParseChecked_of_le (inp : TxInput) (h8 : 8 ≤ inp.inputLen) :
    txParseChecked inp ≠ none := by
  unfold txParseChecked
  rw [testAt_of_lt _ _ 0 70 (by omega), testAt_of_lt _ _ 1 76 (by omega),
    testAt_of_lt _ _ 2 88 (by omega), testAt_of_lt _ _ 3 58 (by omega),
    parseHeaderChecked_eq _ _ h8]
  have h6 : decide (6 ≤ inp.inputLen) = true := by simp; omega
  rw [h6]
  cases decide (inp.input.getD 0 0 = 70) <;> cases decide (inp.input.getD 1 0 = 76) <;>
    cases decide (inp.input.getD 2 0 = 88) <;> cases decide (inp.input.getD 3 0 = 58) <;>
    simp only [andThen] <;> try simp
  cases hp : parseHeader inp.input with
  | none => simp
  | some p => simp

/-! ## The claims -/

/-- C1: in every receiver session that is still in its loop after acknowledging
data frames whose payloads (bytes) total `N ≤ 31744`, the 7-byte frame
`FLX?EOF` from the session's sender (whatever stale bytes follow it in the
buffer) makes `HandleWirelessHEXData` return success, and the chip then reads
`FLXIMG:` at offsets 0..6, `N` big-endian at offsets 7 and 8, `':'` at offset 9
and the acknowledged payloads, concatenated in order, from offset 10. -/
theorem HandleWirelessHEXData_commits (remoteID ms : Nat) (flash0 : List FlashOp)
    (mem0 : Nat → Nat) (ins : List RxInput) (st : RxState) (eof : RxInput) (tail : List Nat)
    (hrun : HandleWirelessHEXData remoteID flash0 ms ins = Outcome.running st)
    (hbytes : ∀ p ∈ st.acked, ∀ b ∈ p, b < 256)
    (hN : st.acked.flatten.length ≤ 31744)
    (h1 : eof.receiveComplete = true) (h2 : eof.crcPass = true) (h3 : eof.sender = remoteID)
    (h4 : eof.dataLen = 7) (h5 : eof.Data = FLX_EOF ++ tail) :
    ∃ st1, HandleWirelessHEXData remoteID flash0 ms (ins ++ [eof]) = Outcome.returned true st1 ∧
      (∀ i < 7, storage mem0 st1.flash i = FLXIMG.getD i 0) ∧
      storage mem0 st1.flash 7 = st.acked.flatten.length / 256 ∧
      storage mem0 st1.flash 8 = st.acked.flatten.length % 256 ∧
      storage mem0 st1.flash 9 = 58 ∧
      ∀ i < st.acked.flatten.length,
        storage mem0 st1.flash (10 + i) = st.acked.flatten.getD i 0 := by
  have hinv : RxInv flash0 st := by
    have := HandleWirelessHEXData_good flash0 remoteID ms ins
    rw [hrun] at this
    exact this
  have hbf : (65536 + st.bytesFlashed - 10) % 65536 = st.acked.flatten.length := by
    rw [hinv.1]
    omega
  have hstep := rxLoopBody_eof remoteID st eof tail h1 h2 h3 h4 h5
  rw [if_neg (by rw [hbf]; omega), hbf] at hstep
  refine ⟨{ st with
      sent := st.sent ++ [FLX_OK]
      flash := SPIFlash.writeByte (SPIFlash.writeByte (SPIFlash.writeByte st.flash 7
        (st.acked.flatten.length / 256)) 8 st.acked.flatten.length) 9 58 }, ?_, ?_⟩
  · unfold HandleWirelessHEXData at hrun ⊢
    rw [runLoop_append, hrun]
    show runLoop (rxLoopBody remoteID) st [eof] = _
    rw [runLoop, hstep]
  · have e1 : st.acked.flatten.length / 256 % 256 = st.acked.flatten.length / 256 := by omega
    have e2 : st.acked.flatten.length % 65536 = st.acked.flatten.length := by omega
    have hflash : SPIFlash.writeByte (SPIFlash.writeByte (SPIFlash.writeByte st.flash 7
        (st.acked.flatten.length / 256)) 8 st.acked.flatten.length) 9 58 =
        flash0 ++ sessionStartOps ++ payloadOps 10 st.acked.flatten ++
          commitOps st.acked.flatten.length := by
      simp only [SPIFlash.writeByte, commitOps, hinv.2, List.append_assoc, e1, e2]
      rfl
    show (∀ i < 7, storage mem0 (SPIFlash.writeByte (SPIFlash.writeByte (SPIFlash.writeByte
      st.flash 7 (st.acked.flatten.length / 256)) 8 st.acked.flatten.length) 9 58) i = _) ∧ _
    rw [hflash]
    exact storage_committed mem0 flash0 _ hN (mem_flatten_lt _ hbytes)

/-- Witness of C1: a session that acknowledges the frame `FLX:0:` with payload
`1, 2, 3` and then receives `FLX?EOF`. -/
theorem HandleWirelessHEXData_commits_witness :
    ∃ st1, HandleWirelessHEXData 1 [] 0
        ([received 1 (dataFrame 0 [1, 2, 3]) 5] ++ [received 1 FLX_EOF 9])
          = Outcome.returned true st1 ∧
      (∀ i < 7, storage (fun _ => 0) st1.flash i = FLXIMG.getD i 0) ∧
      storage (fun _ => 0) st1.flash 7 = [[1, 2, 3]].flatten.length / 256 ∧
      storage (fun _ => 0) st1.flash 8 = [[1, 2, 3]].flatten.length % 256 ∧
      storage (fun _ => 0) st1.flash 9 = 58 ∧
      ∀ i < [[1, 2, 3]].flatten.length,
        storage (fun _ => 0) st1.flash (10 + i) = [[1, 2, 3]].flatten.getD i 0 :=
  HandleWirelessHEXData_commits 1 0 [] (fun _ => 0) [received 1 (dataFrame 0 [1, 2, 3]) 5]
    { now := 5, seq := 1, bytesFlashed := 13,
      flash := [FlashOp.erase32K 0, FlashOp.program 0 [70, 76, 88, 73, 77, 71, 58],
        FlashOp.program 9 [58], FlashOp.program 10 [1], FlashOp.program 11 [2],
        FlashOp.program 12 [3]],
      sent := [[70, 76, 88, 63, 79, 75], [70, 76, 88, 58, 48, 58, 79, 75]],
      acked := [[1, 2, 3]] }
    (received 1 FLX_EOF 9) [] (by decide) (by decide) (by decide) rfl rfl rfl rfl rfl

/-- C2: `validateHEXData(data, length)` is non-zero if and only if `length >= 12`,
`length` is even, each of the `length` characters is in `'0'..'9'` or `'A'..'F'`,
the low 8 bits of the two's complement of the sum of all decoded byte pairs but
the last equal the last decoded pair, and `length = 2*c + 10` for the byte `c`
decoded from the first two characters; it then returns `c`, and otherwise `0`. -/
theorem validateHEXData_spec (input : List Nat) (length : Nat) :
    (validateHEXData input length ≠ 0 ↔
      (12 ≤ length ∧ length % 2 = 0 ∧
        (∀ i < length, (48 ≤ input.getD i 0 ∧ input.getD i 0 ≤ 57) ∨
          (65 ≤ input.getD i 0 ∧ input.getD i 0 ≤ 70)) ∧
        twosComplementLow8 (pairSum input (length / 2 - 1))
          = pairByte input (length / 2 - 1) ∧
        length = 2 * pairByte input 0 + 10)) ∧
    (validateHEXData input length ≠ 0 → validateHEXData input length = pairByte input 0) := by
  have hiff : (12 ≤ length ∧ length % 2 = 0 ∧
        (∀ i < length, (48 ≤ input.getD i 0 ∧ input.getD i 0 ≤ 57) ∨
          (65 ≤ input.getD i 0 ∧ input.getD i 0 ≤ 70)) ∧
        twosComplementLow8 (pairSum input (length / 2 - 1))
          = pairByte input (length / 2 - 1) ∧
        length = 2 * pairByte input 0 + 10) ↔ Accepted input length := by
    unfold Accepted
    simp only [isHEX, Bool.or_eq_true, Bool.and_eq_true, decide_eq_true_eq]
  rw [hiff]
  by_cases hacc : Accepted input length
  · rw [validateHEXData_accept input length hacc]
    exact ⟨⟨fun _ => hacc, fun _ => validateHEXData_pos input length hacc⟩, fun _ => rfl⟩
  · rw [validateHEXData_reject input length hacc]
    exact ⟨⟨fun h => absurd rfl h, fun h => absurd h hacc⟩, fun h => absurd rfl h⟩

/-- C3: for a payload of `n` bytes, `1 <= n <= 122`, a 16-bit address and a record
type, the Intel-HEX record built from them has `2n+10` characters, is accepted by
`validateHEXData` with result `n`, and the decoding of its data field (the
characters from offset 8) by `prepareSendBuffer` gives back the payload. -/
theorem encodeRecord_roundtrip (addr type : Nat) (payload : List Nat)
    (h1 : 1 ≤ payload.length) (h2 : payload.length ≤ 122) (ha : addr < 65536)
    (ht : type < 256) (hp : ∀ b ∈ payload, b < 256) :
    (encodeRecord addr type payload).length = 2 * payload.length + 10 ∧
    validateHEXData (encodeRecord addr type payload) (2 * payload.length + 10)
      = payload.length ∧
    decodeHEX ((encodeRecord addr type payload).drop 8) payload.length = payload ∧
    ∀ seq, (prepareSendBuffer ((encodeRecord addr type payload).drop 8) payload.length seq).1
      = sprintfHeader seq ++ payload := by
  obtain ⟨hacc, h0⟩ := encodeRecord_accepted addr type payload h1 (by omega) ht ha hp
  have hdec : decodeHEX ((encodeRecord addr type payload).drop 8) payload.length = payload := by
    rw [encodeRecord_drop]
    exact decodeHEX_hexString payload _ hp
  refine ⟨?_, ?_, hdec, ?_⟩
  · unfold encodeRecord
    rw [hexString_length]
    simp [recordBytes]
    omega
  · rw [validateHEXData_accept _ _ hacc, h0]
  · intro seq
    unfold prepareSendBuffer
    rw [hdec]

/-- Witness of C3: the record `:03010000010203F6` (count 3, address 0x0100,
type 0, payload 1, 2, 3). -/
theorem encodeRecord_roundtrip_witness :
    (encodeRecord 256 0 [1, 2, 3]).length = 2 * [1, 2, 3].length + 10 ∧
    validateHEXData (encodeRecord 256 0 [1, 2, 3]) (2 * [1, 2, 3].length + 10)
      = [1, 2, 3].length ∧
    decodeHEX ((encodeRecord 256 0 [1, 2, 3]).drop 8) [1, 2, 3].length = [1, 2, 3] ∧
    ∀ seq, (prepareSendBuffer ((encodeRecord 256 0 [1, 2, 3]).drop 8) [1, 2, 3].length seq).1
      = sprintfHeader seq ++ [1, 2, 3] :=
  encodeRecord_roundtrip 256 0 [1, 2, 3] (by decide) (by decide) (by decide) (by decide)
    (by decide)

/-- C4: in a record accepted by `validateHEXData`, replacing the character at one
position of the data field (offsets `8..length-3`) or of the checksum field
(offsets `length-2`, `length-1`) by any different character makes
`validateHEXData` return 0. -/
theorem validateHEXData_rejects_change (input : List Nat) (length p c : Nat)
    (hacc : validateHEXData input length ≠ 0) (_hp8 : 8 ≤ p) (hp : p < length)
    (hc : c ≠ input.getD p 0) :
    validateHEXData (input.set p c) length = 0 := by
  have h : Accepted input length := by
    by_contra hn
    exact hacc (validateHEXData_reject input length hn)
  exact validateHEXData_reject _ _ (validateHEXData_set input length p c h hp hc)

/-- Witness of C4: the record `03010000010203F6` with its character at offset 9
(`'1'`) replaced by `'2'`. -/
theorem validateHEXData_rejects_change_witness :
    validateHEXData ((encodeRecord 256 0 [1, 2, 3]).set 9 50) 16 = 0 :=
  validateHEXData_rejects_change (encodeRecord 256 0 [1, 2, 3]) 16 9 50 (by decide)
    (by decide) (by decide) (by decide)


/-- C5 (the code at a failing session): 800 data frames of 82 payload bytes each,
65600 bytes in total and so more than 31744, are all acknowledged; the 16-bit
counter `bytesFlashed` wraps around, and `FLX?EOF` then makes
`HandleWirelessHEXData` return success and write the length field (offsets 7
and 8, length 64). -/
theorem HandleWirelessHEXData_overflow_commits :
    ∃ st, HandleWirelessHEXData 1 [] 0
        (chunkInputs 1 0 0 (List.replicate 800 (List.replicate 82 0)) ++
          [received 1 FLX_EOF 0]) = Outcome.returned true st ∧
      st.acked.flatten.length = 65600 ∧
      FlashOp.program 7 [0] ∈ st.flash ∧ FlashOp.program 8 [64] ∈ st.flash := by
  obtain ⟨st, h1, h2, h3⟩ := HandleWirelessHEXData_chunks_eof 1 0 []
    (List.replicate 800 (List.replicate 82 0))
    (by rw [List.length_replicate]; norm_num)
    (fun p hp => by rw [List.eq_of_mem_replicate hp]; simp)
    (fun p hp b hb => by
      rw [List.eq_of_mem_replicate hp] at hb
      rw [List.eq_of_mem_replicate hb]
      norm_num)
    (by norm_num) (by rw [flatten_replicate_length]; norm_num)
  refine ⟨st, h1, ?_, ?_, ?_⟩
  · rw [h2, flatten_replicate_length]
  · rw [h3, flatten_replicate_length]
    exact List.mem_append_right _ (by decide)
  · rw [h3, flatten_replicate_length]
    exact List.mem_append_right _ (by decide)

/-- C6 (the code at a failing input): the frame `FLX:1000:A` built by
`prepareSendBuffer` for sequence number 1000 is rejected by the header parser,
which after four digits tests the fourth digit for the colon: the receiver, in
any state, returns failure on it, and so does the host on the line
`FLX:1000:0100000041BE`. -/
theorem dataFrame_1000_rejected :
    dataFrame 1000 [65] = [70, 76, 88, 58, 49, 48, 48, 48, 58, 65] ∧
    parseHeader (dataFrame 1000 [65]) = none ∧
    (∀ remoteID st ms,
      rxLoopBody remoteID st (received remoteID (dataFrame 1000 [65]) ms)
        = Outcome.returned false st) ∧
    (∀ TIMEOUT st ms,
      txLoopBody TIMEOUT st
        (serialLine ([70, 76, 88, 58, 49, 48, 48, 48, 58] ++ encodeRecord 0 0 [65]) ms)
        = Outcome.returned false st) := by
  refine ⟨by decide, by decide, ?_, ?_⟩
  · intro remoteID st ms
    exact rxLoopBody_malformed remoteID st _ rfl rfl rfl
      (show 7 ≤ (dataFrame 1000 [65]).length by decide) rfl rfl rfl rfl
      (show parseHeader (dataFrame 1000 [65]) = none by decide)
  · intro TIMEOUT st ms
    exact txLoopBody_malformed TIMEOUT st _
      (show 6 ≤ ([70, 76, 88, 58, 49, 48, 48, 48, 58] ++ encodeRecord 0 0 [65]).length
        by decide) rfl rfl rfl rfl
      (show parseHeader (([70, 76, 88, 58, 49, 48, 48, 48, 58] ++ encodeRecord 0 0 [65])
        ++ [0]) = none by decide)

/-- C7 (the code at a failing input): a receiver that expects sequence number 0
and receives the data frame `FLX:1000:A` from the session's sender does not
ignore it: `HandleWirelessHEXData` returns failure, which ends the session. -/
theorem HandleWirelessHEXData_1000_ends_session :
    (rxStart [] 0).seq = 0 ∧
    HandleWirelessHEXData 1 [] 0 [received 1 (dataFrame 1000 [65]) 0]
      = Outcome.returned false (rxStart [] 0) := by
  decide

/-- C10 (the code at a failing input): on the serial line `FLX:1000:ZZ`, whose
remaining characters `ZZ` are rejected by `validateHEXData`, the host prints
nothing (no `FLX:INV`) and `HandleSerialHEXData` returns failure. -/
theorem HandleSerialHEXData_1000_invalid :
    validateHEXData [90, 90] 2 = 0 ∧
    HandleSerialHEXData 3000 0 [serialLine [70, 76, 88, 58, 49, 48, 48, 48, 58, 90, 90] 0]
      = Outcome.returned false { now := 0, seq := 0, serial := [], radio := [] } := by
  decide


/-- The header of the frame `FLX:1000:A` is well formed, and those of `FLX::AB`,
`FLX:12AB`, `FLX:a:xyz` and `FLX:1` are malformed. -/
theorem wellFormedHeader_examples :
    wellFormedHeader (dataFrame 1000 [65]) (dataFrame 1000 [65]).length ∧
    ¬ wellFormedHeader [70, 76, 88, 58, 58, 65, 66] 7 ∧
    ¬ wellFormedHeader [70, 76, 88, 58, 49, 50, 65, 66] 8 ∧
    ¬ wellFormedHeader [70, 76, 88, 58, 97, 58, 120, 121, 122] 9 ∧
    ¬ wellFormedHeader [70, 76, 88, 58, 49] 5 := by
  decide

/-- C8 (counterexample): the frame `FLX::AB`, with an empty sequence field,
received from the session's sender makes `HandleWirelessHEXData` return failure,
and the serial line `FLX::AB` makes `HandleSerialHEXData` return failure: a
malformed header ends the session. So does the frame `FLX:12AB`, with no colon
after the sequence digits. The frame `FLX:a:xyz`, whose sequence field holds no
digit, does not leave the state unchanged when sequence number 0 is expected:
`xyz` is programmed at offsets 10 to 12 and acknowledged as chunk 0; likewise
the host sends the record of the serial line `FLX:a:0100000041BE` as chunk 0.
The serial lines `FLX:1` and `FLX:a5:0100000041BE` are not answered `FLX:INV`:
the host prints nothing. -/
theorem malformed_header_is_fatal :
    HandleWirelessHEXData 1 [] 0 [received 1 [70, 76, 88, 58, 58, 65, 66] 0]
      = Outcome.returned false (rxStart [] 0) ∧
    HandleSerialHEXData 3000 0 [serialLine [70, 76, 88, 58, 58, 65, 66] 0]
      = Outcome.returned false { now := 0, seq := 0, serial := [], radio := [] } ∧
    HandleWirelessHEXData 1 [] 0 [received 1 [70, 76, 88, 58, 49, 50, 65, 66] 0]
      = Outcome.returned false (rxStart [] 0) ∧
    HandleWirelessHEXData 1 [] 0 [received 1 [70, 76, 88, 58, 97, 58, 120, 121, 122] 0]
      = Outcome.running
          { now := 0, seq := 1, bytesFlashed := 13,
            flash := [FlashOp.erase32K 0, FlashOp.program 0 [70, 76, 88, 73, 77, 71, 58],
              FlashOp.program 9 [58], FlashOp.program 10 [120], FlashOp.program 11 [121],
              FlashOp.program 12 [122]],
            sent := [FLX_OK, [70, 76, 88, 58, 48, 58, 79, 75]],
            acked := [[120, 121, 122]] } ∧
    HandleSerialHEXData 3000 0
        [serialLine ([70, 76, 88, 58, 97, 58] ++ encodeRecord 0 0 [65]) 0]
      = Outcome.running
          { now := 0, seq := 1, serial := [[70, 76, 88, 58, 48, 58, 79, 75]],
            radio := [[70, 76, 88, 58, 48, 58, 65]] } ∧
    HandleSerialHEXData 3000 0 [serialLine [70, 76, 88, 58, 49] 0]
      = Outcome.running { now := 0, seq := 0, serial := [], radio := [] } ∧
    HandleSerialHEXData 3000 0
        [serialLine ([70, 76, 88, 58, 97, 53, 58] ++ encodeRecord 0 0 [65]) 0]
      = Outcome.running { now := 0, seq := 0, serial := [], radio := [] } := by
  decide

/-- C8 (amended): take a frame `inp` received during a receiver session and a
line `line` read during a host session that begin with `FLX:` and whose header
is malformed (not one to four decimal digits followed by a colon). A frame
shorter than 7 bytes, or not received complete, with a good CRC and from the
session's sender, and a line shorter than 6 characters, are skipped: the state
is unchanged, nothing is printed and the loop goes on. Otherwise, if the
sequence field is open (it is empty, or the frame or line has at least 8 bytes
and no colon at offsets 5 to 7), the routine returns failure at once, with
nothing written, sent or printed. If it is closed (not empty, with a colon at
offset 5, 6 or 7 inside the frame or line), the parser accepts the header,
reading the number formed by its digits, and the frame or line is not fatal: the
receiver stays in its loop, and when the number is not the expected sequence
number it only takes the time; the host answers `FLX:INV` when the remaining
characters fail `validateHEXData`, and only takes the time when they pass and
the number is not the expected one. A serial line `inv` of at least 6 characters
whose header the parser accepts inside the line and whose remaining characters
fail `validateHEXData` is answered `FLX:INV`, with the expected sequence number
and the radio left alone, and the loop goes on. The timeouts are taken not to
have expired. The hypotheses that the headers are malformed are not used by the
proof: they keep the well-formed header of four digits, which the parser rejects
as well, out of the statement. Frames of 7 bytes and lines of 6 or 7 characters
with no colon behind offset 4, on which the header loop reads behind the end,
are neither open nor closed. -/
theorem malformed_header_handling (remoteID TIMEOUT : Nat) (st : RxState) (tst : TxState)
    (inp : RxInput) (line inv : TxInput) (itmp iindex : Nat)
    (hs : startsFLXColon inp.Data) (_hm : ¬ wellFormedHeader inp.Data inp.dataLen)
    (ls : startsFLXColon line.input) (_lm : ¬ wellFormedHeader line.input line.inputLen)
    (i6 : 6 ≤ inv.inputLen) (is : startsFLXColon inv.input)
    (ip : parseHeader inv.input = some (itmp, iindex)) (_ii : iindex ≤ inv.inputLen)
    (iv : validateHEXData (inv.input.drop iindex)
      ((65536 + inv.inputLen - iindex) % 65536 % 256) = 0)
    (it : elapsed inv.msCheck inv.msGood ≤ TIMEOUT) :
    ((¬ (inp.receiveComplete = true ∧ inp.crcPass = true ∧ inp.sender = remoteID) ∨
        inp.dataLen < 7) →
      elapsed inp.msCheck st.now ≤ 3000 →
      rxLoopBody remoteID st inp = Outcome.running st) ∧
    ((inp.receiveComplete = true ∧ inp.crcPass = true ∧ inp.sender = remoteID) →
      7 ≤ inp.dataLen →
      (seqFieldOpen inp.Data inp.dataLen →
        rxLoopBody remoteID st inp = Outcome.returned false st) ∧
      (seqFieldClosed inp.Data inp.dataLen → elapsed inp.msCheck inp.msGood ≤ 3000 →
        ∃ tmp index, parseHeader inp.Data = some (tmp, index) ∧ index ≤ inp.dataLen ∧
          (∃ st1, rxLoopBody remoteID st inp = Outcome.running st1) ∧
          (tmp ≠ st.seq →
            rxLoopBody remoteID st inp = Outcome.running { st with now := inp.msGood }))) ∧
    (line.inputLen < 6 → elapsed line.msCheck tst.now ≤ TIMEOUT →
      txLoopBody TIMEOUT tst line = Outcome.running tst) ∧
    (6 ≤ line.inputLen →
      (seqFieldOpen line.input line.inputLen →
        txLoopBody TIMEOUT tst line = Outcome.returned false tst) ∧
      (seqFieldClosed line.input line.inputLen →
        elapsed line.msCheck line.msGood ≤ TIMEOUT →
        ∃ tmp index, parseHeader line.input = some (tmp, index) ∧ index ≤ line.inputLen ∧
          (validateHEXData (line.input.drop index)
              ((65536 + line.inputLen - index) % 65536 % 256) = 0 →
            txLoopBody TIMEOUT tst line = Outcome.running
              { tst with now := line.msGood, serial := tst.serial ++ [FLX_INV] }) ∧
          (0 < validateHEXData (line.input.drop index)
              ((65536 + line.inputLen - index) % 65536 % 256) → tmp ≠ tst.seq →
            txLoopBody TIMEOUT tst line = Outcome.running { tst with now := line.msGood }))) ∧
    txLoopBody TIMEOUT tst inv =
      Outcome.running { tst with now := inv.msGood, serial := tst.serial ++ [FLX_INV] } := by
  refine ⟨?_, ?_, ?_, ?_, ?_⟩
  · intro h ht
    exact rxLoopBody_skip remoteID st inp hs.2.2.2 h ht
  · intro hf h7
    refine ⟨fun ho => ?_, fun hc ht => ?_⟩
    · exact rxLoopBody_malformed remoteID st inp hf.1 hf.2.1 hf.2.2 h7 hs.1 hs.2.1 hs.2.2.1
        hs.2.2.2 (parseHeader_of_open inp.Data inp.dataLen ho)
    · obtain ⟨tmp, index, hp, hle⟩ := parseHeader_of_closed inp.Data inp.dataLen hc
      refine ⟨tmp, index, hp, hle, ?_, fun hne =>
        rxLoopBody_ignore remoteID st inp tmp index hf.1 hf.2.1 hf.2.2 h7 hs.1 hs.2.1
          hs.2.2.1 hs.2.2.2 hp hne ht⟩
      by_cases he : tmp = st.seq
      · subst he
        exact ⟨_, rxLoopBody_accept remoteID st inp index hf.1 hf.2.1 hf.2.2 h7 hs.1 hs.2.1
          hs.2.2.1 hs.2.2.2 hp ht⟩
      · exact ⟨_, rxLoopBody_ignore remoteID st inp tmp index hf.1 hf.2.1 hf.2.2 h7 hs.1
          hs.2.1 hs.2.2.1 hs.2.2.2 hp he ht⟩
  · intro h ht
    exact txLoopBody_skip TIMEOUT tst line h ht
  · intro l6
    refine ⟨fun ho => ?_, fun hc ht => ?_⟩
    · exact txLoopBody_malformed TIMEOUT tst line l6 ls.1 ls.2.1 ls.2.2.1 ls.2.2.2
        (parseHeader_of_open line.input line.inputLen ho)
    · obtain ⟨tmp, index, hp, hle⟩ := parseHeader_of_closed line.input line.inputLen hc
      exact ⟨tmp, index, hp, hle,
        fun hv => txLoopBody_invalid TIMEOUT tst line tmp index l6 ls.1 ls.2.1 ls.2.2.1
          ls.2.2.2 hp hv ht,
        fun hv hne => txLoopBody_ignore TIMEOUT tst line tmp index l6 ls.1 ls.2.1 ls.2.2.1
          ls.2.2.2 hp hv hne ht⟩
  · exact txLoopBody_invalid TIMEOUT tst inv itmp iindex i6 is.1 is.2.1 is.2.2.1 is.2.2.2
      ip iv it

/-- Witness of C8 (amended): the frame and the line `FLX::AB` return failure, the
frame `FLX:a:xyz` keeps the receiver in its loop, the line `FLX:a:ZZ` is
answered `FLX:INV`, the frame `FLX:1` and the line `FLX:1` are skipped, and the
line `FLX:0:ZZ` is answered `FLX:INV`. -/
theorem malformed_header_handling_witness :
    rxLoopBody 1 (rxStart [] 0) (received 1 [70, 76, 88, 58, 58, 65, 66] 0)
      = Outcome.returned false (rxStart [] 0) ∧
    txLoopBody 3000 { now := 0, seq := 0, serial := [], radio := [] }
        (serialLine [70, 76, 88, 58, 58, 65, 66] 0)
      = Outcome.returned false { now := 0, seq := 0, serial := [], radio := [] } ∧
    (∃ st1, rxLoopBody 1 (rxStart [] 0)
      (received 1 [70, 76, 88, 58, 97, 58, 120, 121, 122] 0) = Outcome.running st1) ∧
    (∃ tmp index, parseHeader (serialLine [70, 76, 88, 58, 97, 58, 90, 90] 0).input
        = some (tmp, index) ∧
      txLoopBody 3000 { now := 0, seq := 0, serial := [], radio := [] }
          (serialLine [70, 76, 88, 58, 97, 58, 90, 90] 0)
        = Outcome.running { now := 0, seq := 0, serial := [] ++ [FLX_INV], radio := [] }) ∧
    rxLoopBody 1 (rxStart [] 0) (received 1 [70, 76, 88, 58, 49] 0)
      = Outcome.running (rxStart [] 0) ∧
    txLoopBody 3000 { now := 0, seq := 0, serial := [], radio := [] }
        (serialLine [70, 76, 88, 58, 49] 0)
      = Outcome.running { now := 0, seq := 0, serial := [], radio := [] } ∧
    txLoopBody 3000 { now := 0, seq := 0, serial := [], radio := [] }
        (serialLine [70, 76, 88, 58, 48, 58, 90, 90] 5)
      = Outcome.running { now := 5, seq := 0, serial := [] ++ [FLX_INV], radio := [] } := by
  have ha := malformed_header_handling 1 3000 (rxStart [] 0)
    { now := 0, seq := 0, serial := [], radio := [] }
    (received 1 [70, 76, 88, 58, 58, 65, 66] 0)
    (serialLine [70, 76, 88, 58, 58, 65, 66] 0)
    (serialLine [70, 76, 88, 58, 48, 58, 90, 90] 5) 0 6
    (by decide) (by decide) (by decide) (by decide) (by decide) (by decide) (by decide)
    (by decide) (by decide) (by decide)
  have hb := malformed_header_handling 1 3000 (rxStart [] 0)
    { now := 0, seq := 0, serial := [], radio := [] }
    (received 1 [70, 76, 88, 58, 97, 58, 120, 121, 122] 0)
    (serialLine [70, 76, 88, 58, 97, 58, 90, 90] 0)
    (serialLine [70, 76, 88, 58, 48, 58, 90, 90] 5) 0 6
    (by decide) (by decide) (by decide) (by decide) (by decide) (by decide) (by decide)
    (by decide) (by decide) (by decide)
  have hc := malformed_header_handling 1 3000 (rxStart [] 0)
    { now := 0, seq := 0, serial := [], radio := [] }
    (received 1 [70, 76, 88, 58, 49] 0)
    (serialLine [70, 76, 88, 58, 49] 0)
    (serialLine [70, 76, 88, 58, 48, 58, 90, 90] 5) 0 6
    (by decide) (by decide) (by decide) (by decide) (by decide) (by decide) (by decide)
    (by decide) (by decide) (by decide)
  refine ⟨(ha.2.1 (by decide) (by decide)).1 (by decide),
    (ha.2.2.2.1 (by decide)).1 (by decide), ?_, ?_,
    hc.1 (by decide) (by decide), hc.2.2.1 (by decide) (by decide), ha.2.2.2.2⟩
  · obtain ⟨_, _, _, _, h2, _⟩ :=
      (hb.2.1 (by decide) (by decide)).2 (by decide) (by decide)
    exact h2
  · obtain ⟨tmp, index, hp, _, hinv, _⟩ :=
      (hb.2.2.2.1 (by decide)).2 (by decide) (by decide)
    refine ⟨tmp, index, hp, hinv ?_⟩
    have e : parseHeader (serialLine [70, 76, 88, 58, 97, 58, 90, 90] 0).input
        = some (0, 6) := by decide
    rw [e] at hp
    cases hp
    decide

/-- C9 (counterexample): in the session that receives `FLX?EOF` right after the
handshake, offset 9 is programmed twice after the erase: the sentinel `':'` is
written at the start of the session and again with the length field. In the
session that receives 400 data frames of 82 payload bytes each, 32800 bytes in
all, every frame is acknowledged and offset 32768, which lies outside the erased
block 0, is programmed. -/
theorem sentinel_written_twice :
    HandleWirelessHEXData 1 [] 0 [received 1 FLX_EOF 0] =
      Outcome.returned true
        { now := 0, seq := 0, bytesFlashed := 10,
          flash := [FlashOp.erase32K 0, FlashOp.program 0 [70, 76, 88, 73, 77, 71, 58],
            FlashOp.program 9 [58], FlashOp.program 7 [0], FlashOp.program 8 [0],
            FlashOp.program 9 [58]],
          sent := [FLX_OK, FLX_OK], acked := [] } ∧
    writtenOffsets (HandleWirelessHEXData 1 [] 0 [received 1 FLX_EOF 0]).state.flash.tail
      = [0, 1, 2, 3, 4, 5, 6, 9, 7, 8, 9] ∧
    ¬ EraseBeforeWrite (HandleWirelessHEXData 1 [] 0 [received 1 FLX_EOF 0]).state.flash ∧
    ∃ st, HandleWirelessHEXData 1 [] 0
        (chunkInputs 1 0 0 (List.replicate 400 (List.replicate 82 0))) = Outcome.running st ∧
      st.acked.flatten.length = 32800 ∧
      32768 ∈ writtenOffsets st.flash.tail ∧ ¬ EraseBeforeWrite st.flash := by
  refine ⟨by decide, by decide, by decide, ?_⟩
  obtain ⟨st, h1, h2, h3⟩ := HandleWirelessHEXData_chunks 1 0 []
    (List.replicate 400 (List.replicate 82 0))
    (by rw [List.length_replicate]; norm_num)
    (fun p hp => by rw [List.eq_of_mem_replicate hp]; simp)
    (fun p hp b hb => by
      rw [List.eq_of_mem_replicate hp] at hb
      rw [List.eq_of_mem_replicate hb]
      norm_num)
    (by norm_num)
  have hlen : st.acked.flatten.length = 32800 := by
    rw [h2, flatten_replicate_length]
  have hoff : writtenOffsets st.flash.tail =
      [0, 1, 2, 3, 4, 5, 6, 9] ++ List.range' 10 32800 ++ [] := by
    rw [h3, List.nil_append, ← hlen, h2]
    have := writtenOffsets_session (List.replicate 400 (List.replicate 82 0)).flatten []
      (by rw [flatten_replicate_length]; norm_num)
    rw [List.append_nil] at this
    exact this
  have hmem : 32768 ∈ writtenOffsets st.flash.tail := by
    rw [hoff, List.append_nil, List.mem_append, List.mem_range'_1]
    right
    omega
  refine ⟨st, h1, hlen, hmem, ?_⟩
  intro he
  exact absurd (he.2.2.1 32768 hmem) (by omega)

/-- C9 (amended): whatever a receiver session receives, the commands it sends to
the chip begin with the erase of block 0 and contain no other erase. As long as
its acknowledged payload is at most 32758 bytes (what block 0 holds behind the
10-byte header), every later command programs offsets of block 0 that have not
been programmed since the erase, with one exception: offset 9, programmed with
`':'` by the third command of the session, is programmed with `':'` once more by
the last command of a session that ends with success, right after the length
field. -/
theorem HandleWirelessHEXData_erase_before_write (remoteID ms : Nat)
    (flash0 : List FlashOp) (ins : List RxInput) :
    ∃ ops, (HandleWirelessHEXData remoteID flash0 ms ins).state.flash = flash0 ++ ops ∧
      ops.head? = some (FlashOp.erase32K 0) ∧
      (∀ op ∈ ops.tail, op.isErase = false) ∧
      ((HandleWirelessHEXData remoteID flash0 ms ins).state.acked.flatten.length ≤ 32758 →
        EraseBeforeWriteSentinel ops
          (HandleWirelessHEXData remoteID flash0 ms ins).success) := by
  have hgood := HandleWirelessHEXData_good flash0 remoteID ms ins
  cases hr : HandleWirelessHEXData remoteID flash0 ms ins with
  | running st =>
    rw [hr] at hgood
    have he := session_ops_erase_once st.acked.flatten [] (Or.inl rfl)
    rw [List.append_nil] at he
    refine ⟨sessionStartOps ++ payloadOps 10 st.acked.flatten, ?_, he.1, he.2,
      fun hN => session_ops_sentinel_open _ hN⟩
    show st.flash = _
    rw [hgood.2, List.append_assoc]
  | returned b st =>
    rw [hr] at hgood
    cases b with
    | false =>
      have hinv : RxInv flash0 st := hgood
      have he := session_ops_erase_once st.acked.flatten [] (Or.inl rfl)
      rw [List.append_nil] at he
      refine ⟨sessionStartOps ++ payloadOps 10 st.acked.flatten, ?_, he.1, he.2,
        fun hN => session_ops_sentinel_open _ hN⟩
      show st.flash = _
      rw [hinv.2, List.append_assoc]
    | true =>
      have hfin : st.acked.flatten.length % 65536 ≤ 31744 ∧
          st.flash = flash0 ++ sessionStartOps ++ payloadOps 10 st.acked.flatten ++
            commitOps st.acked.flatten.length := hgood
      have he := session_ops_erase_once st.acked.flatten (commitOps st.acked.flatten.length)
        (Or.inr ⟨_, rfl⟩)
      refine ⟨sessionStartOps ++ payloadOps 10 st.acked.flatten ++
        commitOps st.acked.flatten.length, ?_, he.1, he.2,
        fun hN => session_ops_sentinel_committed _ _ hN⟩
      show st.flash = _
      rw [hfin.2, List.append_assoc, List.append_assoc, List.append_assoc]

/-- Witness of C9 (amended): the session that acknowledges `FLX:0:` with payload
`1, 2, 3` and then receives `FLX?EOF`, which ends with success. -/
theorem HandleWirelessHEXData_erase_before_write_witness :
    ∃ ops, (HandleWirelessHEXData 1 [] 0
        [received 1 (dataFrame 0 [1, 2, 3]) 5, received 1 FLX_EOF 9]).state.flash
          = [] ++ ops ∧
      EraseBeforeWriteSentinel ops true := by
  obtain ⟨ops, h1, -, -, h4⟩ := HandleWirelessHEXData_erase_before_write 1 0 []
    [received 1 (dataFrame 0 [1, 2, 3]) 5, received 1 FLX_EOF 9]
  have hs : (HandleWirelessHEXData 1 [] 0
      [received 1 (dataFrame 0 [1, 2, 3]) 5, received 1 FLX_EOF 9]).success = true := by
    decide
  rw [hs] at h4
  exact ⟨ops, h1, h4 (by decide)⟩

/-- C11: when the message in the radio is exactly the 7 bytes `FLX?EOF`,
`CheckForWirelessHEX` sends `FLX?OK` to its sender, sends no command to the
flash chip and starts no session; every other message of at least 4 bytes that
begins with `FLX?` starts a session of `HandleWirelessHEXData` with its sender:
`FLX?OK` is sent, block 0 erased, the marker and the sentinel written, and the
loop entered with `bytesFlashed = 10` and expected sequence number 0. -/
theorem CheckForWirelessHEX_handshake (eof msg : RxInput) (flash : List FlashOp) (ms : Nat)
    (ins : List RxInput) (tail : List Nat)
    (e1 : eof.dataLen = 7) (e2 : eof.Data = FLX_EOF ++ tail)
    (h4 : 4 ≤ msg.dataLen) (hq : startsFLXQuery msg.Data)
    (hne : ¬ (msg.dataLen = 7 ∧ msg.Data.getD 4 0 = 69 ∧ msg.Data.getD 5 0 = 79 ∧
      msg.Data.getD 6 0 = 70)) :
    CheckForWirelessHEX eof flash ms ins =
      { replies := [(eof.sender, FLX_OK)], flash := flash, session := none,
        reboot := false } ∧
    (CheckForWirelessHEX msg flash ms ins).session =
      some (runLoop (rxLoopBody msg.sender)
        { now := ms, seq := 0, bytesFlashed := 10,
          flash := flash ++
            [FlashOp.erase32K 0, FlashOp.program 0 FLXIMG, FlashOp.program 9 [58]],
          sent := [FLX_OK], acked := [] } ins) := by
  constructor
  · have d0 : eof.Data.getD 0 0 = 70 := by rw [e2]; rfl
    have d1 : eof.Data.getD 1 0 = 76 := by rw [e2]; rfl
    have d2 : eof.Data.getD 2 0 = 88 := by rw [e2]; rfl
    have d3 : eof.Data.getD 3 0 = 63 := by rw [e2]; rfl
    have d4 : eof.Data.getD 4 0 = 69 := by rw [e2]; rfl
    have d5 : eof.Data.getD 5 0 = 79 := by rw [e2]; rfl
    have d6 : eof.Data.getD 6 0 = 70 := by rw [e2]; rfl
    unfold CheckForWirelessHEX
    rw [if_pos ⟨by omega, d0, d1, d2, d3⟩, if_pos ⟨e1, d4, d5, d6⟩]
  · have hstart : rxStart flash ms =
        { now := ms, seq := 0, bytesFlashed := 10,
          flash := flash ++
            [FlashOp.erase32K 0, FlashOp.program 0 FLXIMG, FlashOp.program 9 [58]],
          sent := [FLX_OK], acked := [] } := by
      simp [rxStart, SPIFlash.writeByte, SPIFlash.writeBytes, SPIFlash.blockErase32K]
      decide
    have hsess : (CheckForWirelessHEX msg flash ms ins).session =
        some (HandleWirelessHEXData msg.sender flash ms ins) := by
      unfold CheckForWirelessHEX
      rw [if_pos ⟨h4, hq.1, hq.2.1, hq.2.2.1, hq.2.2.2⟩, if_neg hne]
      cases HandleWirelessHEXData msg.sender flash ms ins with
      | running st => rfl
      | returned b st =>
        cases b with
        | true => rfl
        | false => rfl
    rw [hsess]
    unfold HandleWirelessHEXData
    rw [hstart]

/-- Witness of C11: the message `FLX?EOF` from node 3, and the message `FLX?`
from node 3. -/
theorem CheckForWirelessHEX_handshake_witness :
    CheckForWirelessHEX (received 3 FLX_EOF 0) [] 0 [] =
      { replies := [((received 3 FLX_EOF 0).sender, FLX_OK)], flash := [], session := none,
        reboot := false } ∧
    (CheckForWirelessHEX (received 3 [70, 76, 88, 63] 0) [] 0 []).session =
      some (runLoop (rxLoopBody (received 3 [70, 76, 88, 63] 0).sender)
        { now := 0, seq := 0, bytesFlashed := 10,
          flash := [] ++
            [FlashOp.erase32K 0, FlashOp.program 0 FLXIMG, FlashOp.program 9 [58]],
          sent := [FLX_OK], acked := [] } []) :=
  CheckForWirelessHEX_handshake (received 3 FLX_EOF 0) (received 3 [70, 76, 88, 63] 0) [] 0 []
    [] rfl rfl (by decide) (by decide) (by decide)

/-- C12 (the code at failing inputs): on the 7-byte frame `FLX:123` the receiver's
header loop reads `radio.Data[7]`, an index not below `dataLen`, and what the
parser returns depends on that byte (with `':'` there the frame is taken as
sequence number 123, with 0 the routine returns false); on the 6-character line
`FLX:12` the host's header loop reads `input[6]`, an index not below `inputLen`. -/
theorem header_read_past_frame :
    rxParseChecked (received 1 [70, 76, 88, 58, 49, 50, 51] 0) = none ∧
    parseHeader ([70, 76, 88, 58, 49, 50, 51] ++ [58]) = some (123, 8) ∧
    parseHeader ([70, 76, 88, 58, 49, 50, 51] ++ [0]) = none ∧
    txParseChecked (serialLine [70, 76, 88, 58, 49, 50] 0) = none := by
  decide

/-- The frame built for a serial line of at most 63 characters that contains the
header the parser found (`index ≤ inputLen`), whose remaining characters are
accepted by `validateHEXData` and whose sequence number is the expected one, is
at most 32 bytes long, the returned size is its length, and every index of
`sendBuf` written is below 32, whatever the buffer holds behind the line. -/
theorem prepareSendBuffer_fits_in_line (st : TxState) (inp : TxInput) (tmp index : Nat)
    (hlen : inp.inputLen ≤ 63) (hin : index ≤ inp.inputLen)
    (hp : parseHeader inp.input = some (tmp, index))
    (hv : 0 < validateHEXData (inp.input.drop index)
      ((65536 + inp.inputLen - index) % 65536 % 256))
    (hseq : tmp = st.seq) :
    (prepareSendBuffer (inp.input.drop (index + 8))
      (validateHEXData (inp.input.drop index)
        ((65536 + inp.inputLen - index) % 65536 % 256)) st.seq).1.length ≤ 32 ∧
    (prepareSendBuffer (inp.input.drop (index + 8))
      (validateHEXData (inp.input.drop index)
        ((65536 + inp.inputLen - index) % 65536 % 256)) st.seq).2 =
      (prepareSendBuffer (inp.input.drop (index + 8))
        (validateHEXData (inp.input.drop index)
          ((65536 + inp.inputLen - index) % 65536 % 256)) st.seq).1.length ∧
    ∀ i ∈ sendBufIndices (validateHEXData (inp.input.drop index)
        ((65536 + inp.inputLen - index) % 65536 % 256)) st.seq, i < 32 := by
  subst hseq
  obtain ⟨hs, h6⟩ := sendBuf_size inp.input inp.inputLen st.seq index hlen hin hp hv
  refine ⟨?_, ?_, ?_⟩
  · unfold prepareSendBuffer
    rw [List.length_append, decodeHEX_length]
    omega
  · unfold prepareSendBuffer
    dsimp only
    rw [List.length_append, decodeHEX_length]
    omega
  · intro i hi
    unfold sendBufIndices at hi
    rw [List.mem_append, List.mem_range, List.mem_map] at hi
    rcases hi with h | ⟨k, hk, rfl⟩
    · omega
    · rw [List.mem_range] at hk
      omega

end WirelessHEX
